import Mathlib

/-!
Verification development for the software rasterizer and interactive camera
of the `renderer` repository (`src/renderer/graphics.c`, `src/renderer/camera.c`).

Modelling conventions:

* C `float` values in the rasterizer are modelled by the type `F` below: an
  exact rational for finite values, plus the IEEE-754 special values
  `+inf`, `-inf` and `nan`.  Finite arithmetic is exact (rounding is not
  modelled, and neither is the sign of zero); the propagation rules for the
  special values under `+ - * /` and the comparison operators follow
  IEEE 754, which is what the degenerate-triangle behaviour of the code
  depends on (division by a zero denominator, ordered comparisons with NaN
  returning false).
* C `int` is modelled by `ℤ` (no overflow is exercised by the claims).
* The camera code is modelled over `ℝ`, since `camera_create` uses `acos`;
  the float constant `PI` is idealised as `Real.pi`.
* Buffers are modelled as total functions from the C array index:
  `colorbuffer : ℤ → ℕ` (byte per index) and `depthbuffer : ℤ → F`,
  so that out-of-range writes would be visible in the model.
* The shader callbacks receive and return an opaque varyings state `V`
  (the C code passes `void *varyings` that the callbacks may mutate);
  `attribs` and `uniforms` are constants over a draw call and are folded
  into the callback closures.
* `gfx_draw_triangle` additionally records two ghost traces that do not
  influence any computed value: `vs_trace`, the list of `nth` arguments of
  the vertex-shader invocations that actually happened, and `frags`, the
  list of pixels for which the fragment stage ran (the single source
  branch – graphics.c lines 199–204 – that calls `interp_varyings`,
  `fragment_shader`, `write_fragment_color` and stores the depth).
-/

namespace Renderer

/-- Mini IEEE-754 float value: exact finite rational, infinities, NaN. -/
inductive F where
  | fin : ℚ → F
  | inf : F
  | ninf : F
  | nan : F
deriving DecidableEq

namespace F

/-- Negation, IEEE style. -/
def neg : F → F
  | fin q => fin (-q)
  | inf => ninf
  | ninf => inf
  | nan => nan

/-- Addition, IEEE style (exact on finite values). -/
def add : F → F → F
  | nan, _ => nan
  | _, nan => nan
  | fin a, fin b => fin (a + b)
  | fin _, inf => inf
  | fin _, ninf => ninf
  | inf, fin _ => inf
  | inf, inf => inf
  | inf, ninf => nan
  | ninf, fin _ => ninf
  | ninf, inf => nan
  | ninf, ninf => ninf

/-- Subtraction `a - b`, defined as `a + (-b)` exactly as in IEEE 754. -/
def sub (a b : F) : F := add a (neg b)

/-- Multiplication, IEEE style: `±inf * 0 = nan`. -/
def mul : F → F → F
  | nan, _ => nan
  | _, nan => nan
  | fin a, fin b => fin (a * b)
  | fin a, inf => if 0 < a then inf else if a < 0 then ninf else nan
  | fin a, ninf => if 0 < a then ninf else if a < 0 then inf else nan
  | inf, fin b => if 0 < b then inf else if b < 0 then ninf else nan
  | ninf, fin b => if 0 < b then ninf else if b < 0 then inf else nan
  | inf, inf => inf
  | inf, ninf => ninf
  | ninf, inf => ninf
  | ninf, ninf => inf

/-- Division, IEEE style: finite/0 gives `±inf` (or `nan` for 0/0),
finite/inf gives 0, inf/inf gives `nan`.  The sign of zero is not
modelled, so a zero divisor behaves like `+0`. -/
def div : F → F → F
  | nan, _ => nan
  | _, nan => nan
  | fin a, fin b =>
      if b = 0 then (if 0 < a then inf else if a < 0 then ninf else nan)
      else fin (a / b)
  | fin _, inf => fin 0
  | fin _, ninf => fin 0
  | inf, fin b => if b < 0 then ninf else inf
  | ninf, fin b => if b < 0 then inf else ninf
  | inf, _ => nan
  | ninf, _ => nan

/-- C `<` on floats: false whenever either side is NaN. -/
def lt : F → F → Bool
  | nan, _ => false
  | _, nan => false
  | fin a, fin b => decide (a < b)
  | fin _, inf => true
  | fin _, ninf => false
  | inf, _ => false
  | ninf, ninf => false
  | ninf, _ => true

/-- C `<=` on floats: false whenever either side is NaN. -/
def le : F → F → Bool
  | nan, _ => false
  | _, nan => false
  | fin a, fin b => decide (a ≤ b)
  | fin _, inf => true
  | fin _, ninf => false
  | inf, inf => true
  | inf, _ => false
  | ninf, _ => true

/-- C `>` on floats. -/
def gt (a b : F) : Bool := lt b a

/-- C `>=` on floats. -/
def ge (a b : F) : Bool := le b a

/-- Finiteness predicate (true exactly on ordinary numbers). -/
def isFinite : F → Bool
  | fin _ => true
  | _ => false

/-- Absolute value, IEEE `fabsf` style (used to state the spec's
`|x| > w` form of the frustum test). -/
def abs : F → F
  | fin q => fin |q|
  | inf => inf
  | ninf => inf
  | nan => nan

end F

/-! Vector and matrix primitives.  These are external collaborators of the
repository (its `geometry` module is not part of the analysed sources).
Modelled from the spec: §6 "Math interface: standard linear algebra". -/

/-- Modelled from the spec: 2D float vector of the external math module. -/
structure vec2_t where
  x : F
  y : F
deriving DecidableEq

/-- Modelled from the spec: 3D float vector of the external math module. -/
structure vec3_t where
  x : F
  y : F
  z : F
deriving DecidableEq

/-- Modelled from the spec: 4D float vector of the external math module. -/
structure vec4_t where
  x : F
  y : F
  z : F
  w : F
deriving DecidableEq

/-- Modelled from the spec: componentwise 2D vector subtraction. -/
def vec2_sub (a b : vec2_t) : vec2_t := ⟨F.sub a.x b.x, F.sub a.y b.y⟩

/-- Modelled from the spec: componentwise 3D vector subtraction. -/
def vec3_sub (a b : vec3_t) : vec3_t :=
  ⟨F.sub a.x b.x, F.sub a.y b.y, F.sub a.z b.z⟩

/-- Modelled from the spec: standard 3D cross product. -/
def vec3_cross (a b : vec3_t) : vec3_t :=
  ⟨F.sub (F.mul a.y b.z) (F.mul a.z b.y),
   F.sub (F.mul a.z b.x) (F.mul a.x b.z),
   F.sub (F.mul a.x b.y) (F.mul a.y b.x)⟩

/-- Modelled from the spec: drop the `w` component. -/
def vec3_from_vec4 (v : vec4_t) : vec3_t := ⟨v.x, v.y, v.z⟩

/-- Modelled from the spec: componentwise scaling of a 4D vector
(including the `w` component, as used for the perspective divide). -/
def vec4_scale (v : vec4_t) (factor : F) : vec4_t :=
  ⟨F.mul v.x factor, F.mul v.y factor, F.mul v.z factor, F.mul v.w factor⟩

/-- Modelled from the spec: a 4×4 float matrix, stored as its four rows. -/
structure mat4_t where
  r0 : vec4_t
  r1 : vec4_t
  r2 : vec4_t
  r3 : vec4_t

/-- Modelled from the spec: 4D dot product (row–vector product helper). -/
def vec4_dot (a b : vec4_t) : F :=
  F.add (F.add (F.add (F.mul a.x b.x) (F.mul a.y b.y)) (F.mul a.z b.z))
    (F.mul a.w b.w)

/-- Modelled from the spec: matrix–vector product `m · v`. -/
def mat4_mul_vec4 (m : mat4_t) (v : vec4_t) : vec4_t :=
  ⟨vec4_dot m.r0 v, vec4_dot m.r1 v, vec4_dot m.r2 v, vec4_dot m.r3 v⟩

/-! Rasterizer data model (graphics.c / graphics.h). -/

/-- Rasterization context (graphics.h `context_t`): a 3-channel byte color
buffer, a parallel float depth buffer (both modelled as functions from the
C array index), and the fixed viewport matrix.  The buffer dimensions are
carried explicitly. -/
structure context_t where
  width : ℤ
  height : ℤ
  viewport : mat4_t
  colorbuffer : ℤ → ℕ
  depthbuffer : ℤ → F

/-- Program descriptor (graphics.h `program_t`): the three shader
callbacks over an opaque varyings state `V`, plus the initial varyings
payload.  `attribs` and `uniforms` are per-draw constants and are folded
into the closures; the vertex shader returns its clip-space output
together with the possibly updated varyings. -/
structure program_t (V : Type) where
  vertex_shader : ℕ → V → vec4_t × V
  interp_varyings : V → vec3_t → V
  fragment_shader : V → vec4_t
  varyings : V

/-! Rasterizer functions translated from graphics.c. -/

/-- Translation of graphics.c `calculate_weights` (lines 43–72):
barycentric weights of `P` with respect to the screen triangle `A B C`. -/
def calculate_weights (A B C P : vec2_t) : vec3_t :=
  let AB := vec2_sub B A
  let AC := vec2_sub C A
  let AP := vec2_sub P A
  let denom := F.sub (F.mul AB.x AC.y) (F.mul AB.y AC.x)
  let s := F.div (F.sub (F.mul AC.y AP.x) (F.mul AC.x AP.y)) denom
  let t := F.div (F.sub (F.mul AB.x AP.y) (F.mul AB.y AP.x)) denom
  ⟨F.sub (F.sub (F.fin 1) s) t, s, t⟩

/-- Translation of graphics.c `min_float` (lines 76–82): minimum of three
floats, clamped from below by `lower_bound`. -/
def min_float (a b c lower_bound : F) : F :=
  let m1 := if F.lt b a then b else a
  let m2 := if F.lt c m1 then c else m1
  if F.lt m2 lower_bound then lower_bound else m2

/-- Translation of graphics.c `max_float` (lines 84–90): maximum of three
floats, clamped from above by `upper_bound`. -/
def max_float (a b c upper_bound : F) : F :=
  let m1 := if F.gt b a then b else a
  let m2 := if F.gt c m1 then c else m1
  if F.gt m2 upper_bound then upper_bound else m2

/-- Integer bounding box of a screen triangle (graphics.c `box_t`). -/
structure box_t where
  min_x : ℤ
  min_y : ℤ
  max_x : ℤ
  max_y : ℤ
deriving DecidableEq

/-- C truncation toward zero of a rational, the semantics of a
float-to-int cast for in-range values. -/
def truncQ (q : ℚ) : ℤ := if 0 ≤ q then ⌊q⌋ else ⌈q⌉

/-- C cast `(int)` applied to a float.  Casting a non-finite value is
undefined behaviour in C; the model returns `0` there, and every theorem
that depends on a cast restricts to finite inputs. -/
def castInt : F → ℤ
  | F.fin q => truncQ q
  | _ => 0

/-- Translation of graphics.c `find_bounding_box` (lines 92–100). -/
def find_bounding_box (width height : ℤ) (p0 p1 p2 : vec2_t) : box_t :=
  { min_x := castInt (min_float p0.x p1.x p2.x (F.fin 0))
    min_y := castInt (min_float p0.y p1.y p2.y (F.fin 0))
    max_x := castInt (F.add (max_float p0.x p1.x p2.x (F.fin ((width : ℚ) - 1)))
      (F.fin (1 / 2)))
    max_y := castInt (F.add (max_float p0.y p1.y p2.y (F.fin ((height : ℚ) - 1)))
      (F.fin (1 / 2))) }

/-- Translation of graphics.c `is_vertex_invisible` (lines 102–108). -/
def is_vertex_invisible (clip_coord : vec4_t) : Bool :=
  F.lt clip_coord.x (F.neg clip_coord.w) || F.gt clip_coord.x clip_coord.w ||
  F.lt clip_coord.y (F.neg clip_coord.w) || F.gt clip_coord.y clip_coord.w ||
  F.lt clip_coord.z (F.neg clip_coord.w) || F.gt clip_coord.z clip_coord.w

/-- Translation of graphics.c `is_back_facing` (lines 110–118), uncurried
over the three NDC coordinates. -/
def is_back_facing (n0 n1 n2 : vec4_t) : Bool :=
  let A := vec3_from_vec4 n0
  let B := vec3_from_vec4 n1
  let C := vec3_from_vec4 n2
  let AB := vec3_sub B A
  let AC := vec3_sub C A
  F.lt (vec3_cross AB AC).z (F.fin 0)

/-- Translation of graphics.c `calculate_depth` (lines 120–125). -/
def calculate_depth (s0 s1 s2 : vec4_t) (weights : vec3_t) : F :=
  F.add (F.add (F.mul s0.z weights.x) (F.mul s1.z weights.y))
    (F.mul s2.z weights.z)

/-- Translation of graphics.c `clamp_float` (lines 127–129). -/
def clamp_float (a min max : F) : F :=
  if F.lt a min then min else if F.gt a max then max else a

/-- C cast `(unsigned char)` applied to a float.  Defined (as truncation
toward zero) for finite values in `[0, 256)`; outside that range, and for
NaN, the C cast is undefined behaviour and the model returns `0`.  The
only casts the code performs are of clamped values in `[0, 255]`. -/
def castUChar : F → ℕ
  | F.fin q => (truncQ q).toNat
  | _ => 0

/-- The interior test of the rasterization loop (graphics.c line 193):
all three barycentric weights nonnegative, with C float comparisons. -/
def weights_inside (weights : vec3_t) : Bool :=
  F.ge weights.x (F.fin 0) && F.ge weights.y (F.fin 0) &&
    F.ge weights.z (F.fin 0)

/-- Translation of graphics.c `write_fragment_color` (lines 131–142):
writes the three clamped, scaled color channels at the pixel's byte
index (`BUFFER_CHANNELS = 3`). -/
def write_fragment_color (width : ℤ) (colorbuffer : ℤ → ℕ) (color : vec4_t)
    (x y : ℤ) : ℤ → ℕ :=
  let index := y * width * 3 + x * 3
  fun j =>
    if j = index then
      castUChar (F.mul (clamp_float color.x (F.fin 0) (F.fin 1)) (F.fin 255))
    else if j = index + 1 then
      castUChar (F.mul (clamp_float color.y (F.fin 0) (F.fin 1)) (F.fin 255))
    else if j = index + 2 then
      castUChar (F.mul (clamp_float color.z (F.fin 0) (F.fin 1)) (F.fin 255))
    else colorbuffer j

/-- Depth-buffer index of a pixel (graphics.c line 194: `y * width + x`). -/
def depthIndex (width : ℤ) (xy : ℤ × ℤ) : ℤ := xy.2 * width + xy.1

/-- First color-buffer byte index of a pixel (graphics.c line 133). -/
def colorBase (width : ℤ) (xy : ℤ × ℤ) : ℤ := xy.2 * width * 3 + xy.1 * 3

/-- Mutable state threaded through the rasterization loop: the two
buffers, the varyings payload, and the ghost list of shaded pixels. -/
structure RState (V : Type) where
  colorbuffer : ℤ → ℕ
  depthbuffer : ℤ → F
  varyings : V
  frags : List (ℤ × ℤ)

/-- Body of the rasterization double loop (graphics.c lines 189–206) for
one pixel `xy`: interior test, early depth test, fragment stage, buffer
writes. -/
def pixel_step {V : Type} (width : ℤ) (program : program_t V)
    (s0 s1 s2 : vec4_t) (p0 p1 p2 : vec2_t) (st : RState V)
    (xy : ℤ × ℤ) : RState V :=
  let point : vec2_t := ⟨F.fin (xy.1 : ℚ), F.fin (xy.2 : ℚ)⟩
  let weights := calculate_weights p0 p1 p2 point
  if weights_inside weights then
    let index := depthIndex width xy
    let depth := calculate_depth s0 s1 s2 weights
    if F.gt (st.depthbuffer index) depth then
      let v := program.interp_varyings st.varyings weights
      let color := program.fragment_shader v
      { colorbuffer := write_fragment_color width st.colorbuffer color xy.1 xy.2
        depthbuffer := fun j => if j = index then depth else st.depthbuffer j
        varyings := v
        frags := st.frags ++ [xy] }
    else st
  else st

/-- Closed integer interval `[lo, hi]` as a list (empty when `hi < lo`),
the index range of a C `for` loop `for (i = lo; i <= hi; i++)`. -/
def intRange (lo hi : ℤ) : List ℤ :=
  (List.range (hi + 1 - lo).toNat).map (fun n : ℕ => lo + (n : ℤ))

/-- Traversal order of the rasterization double loop: `x` outer from
`min_x` to `max_x`, `y` inner from `min_y` to `max_y`. -/
def pixelList (box : box_t) : List (ℤ × ℤ) :=
  (intRange box.min_x box.max_x).flatMap
    (fun x => (intRange box.min_y box.max_y).map (fun y => (x, y)))

/-- Result of a draw call: the updated buffers and varyings, plus the two
ghost traces (vertex-shader invocations and shaded pixels). -/
structure DrawResult (V : Type) where
  colorbuffer : ℤ → ℕ
  depthbuffer : ℤ → F
  varyings : V
  vs_trace : List ℕ
  frags : List (ℤ × ℤ)

/-- Clip-space output of the vertex shader for vertex 0
(graphics.c lines 157–160). -/
def clip0 {V : Type} (program : program_t V) : vec4_t :=
  (program.vertex_shader 0 program.varyings).1

/-- Varyings state after the vertex-shader call for vertex 0. -/
def vary1 {V : Type} (program : program_t V) : V :=
  (program.vertex_shader 0 program.varyings).2

/-- Clip-space output of the vertex shader for vertex 1. -/
def clip1 {V : Type} (program : program_t V) : vec4_t :=
  (program.vertex_shader 1 (vary1 program)).1

/-- Varyings state after the vertex-shader call for vertex 1. -/
def vary2 {V : Type} (program : program_t V) : V :=
  (program.vertex_shader 1 (vary1 program)).2

/-- Clip-space output of the vertex shader for vertex 2. -/
def clip2 {V : Type} (program : program_t V) : vec4_t :=
  (program.vertex_shader 2 (vary2 program)).1

/-- Varyings state after the vertex-shader call for vertex 2. -/
def vary3 {V : Type} (program : program_t V) : V :=
  (program.vertex_shader 2 (vary2 program)).2

/-- Perspective division for vertex 0 (graphics.c lines 168–171:
`factor = 1.0f / w`, then componentwise scaling). -/
def ndc0 {V : Type} (program : program_t V) : vec4_t :=
  vec4_scale (clip0 program) (F.div (F.fin 1) (clip0 program).w)

/-- Perspective division for vertex 1. -/
def ndc1 {V : Type} (program : program_t V) : vec4_t :=
  vec4_scale (clip1 program) (F.div (F.fin 1) (clip1 program).w)

/-- Perspective division for vertex 2. -/
def ndc2 {V : Type} (program : program_t V) : vec4_t :=
  vec4_scale (clip2 program) (F.div (F.fin 1) (clip2 program).w)

/-- Screen coordinates of vertex 0 (graphics.c line 179). -/
def screen0 {V : Type} (context : context_t) (program : program_t V) : vec4_t :=
  mat4_mul_vec4 context.viewport (ndc0 program)

/-- Screen coordinates of vertex 1. -/
def screen1 {V : Type} (context : context_t) (program : program_t V) : vec4_t :=
  mat4_mul_vec4 context.viewport (ndc1 program)

/-- Screen coordinates of vertex 2. -/
def screen2 {V : Type} (context : context_t) (program : program_t V) : vec4_t :=
  mat4_mul_vec4 context.viewport (ndc2 program)

/-- Screen point of vertex 0 (graphics.c line 180). -/
def screenPt0 {V : Type} (context : context_t) (program : program_t V) : vec2_t :=
  ⟨(screen0 context program).x, (screen0 context program).y⟩

/-- Screen point of vertex 1. -/
def screenPt1 {V : Type} (context : context_t) (program : program_t V) : vec2_t :=
  ⟨(screen1 context program).x, (screen1 context program).y⟩

/-- Screen point of vertex 2. -/
def screenPt2 {V : Type} (context : context_t) (program : program_t V) : vec2_t :=
  ⟨(screen2 context program).x, (screen2 context program).y⟩

/-- Bounding box of the triangle being drawn (graphics.c lines 184–186). -/
def triBox {V : Type} (context : context_t) (program : program_t V) : box_t :=
  find_bounding_box context.width context.height (screenPt0 context program)
    (screenPt1 context program) (screenPt2 context program)

/-- Barycentric weights of the sample point of pixel `xy` for the
triangle being drawn. -/
def weightsAt {V : Type} (context : context_t) (program : program_t V)
    (xy : ℤ × ℤ) : vec3_t :=
  calculate_weights (screenPt0 context program) (screenPt1 context program)
    (screenPt2 context program) ⟨F.fin (xy.1 : ℚ), F.fin (xy.2 : ℚ)⟩

/-- Interior test of pixel `xy` for the triangle being drawn. -/
def insideAt {V : Type} (context : context_t) (program : program_t V)
    (xy : ℤ × ℤ) : Bool :=
  weights_inside (weightsAt context program xy)

/-- Interpolated depth of pixel `xy` for the triangle being drawn
(the source's `calculate_depth` applied to its screen coordinates and
weights). -/
def depthAt {V : Type} (context : context_t) (program : program_t V)
    (xy : ℤ × ℤ) : F :=
  calculate_depth (screen0 context program) (screen1 context program)
    (screen2 context program) (weightsAt context program xy)

/-- Translation of graphics.c `gfx_draw_triangle` (lines 144–209).  The
vertex loop (lines 157–165) is unrolled: the vertex shader is called for
vertex `i` and the call returns immediately when that output fails the
view-volume test, so a later vertex shader is only invoked when all
earlier outputs passed. -/
def gfx_draw_triangle {V : Type} (context : context_t)
    (program : program_t V) : DrawResult V :=
  if is_vertex_invisible (clip0 program) then
    ⟨context.colorbuffer, context.depthbuffer, vary1 program, [0], []⟩
  else if is_vertex_invisible (clip1 program) then
    ⟨context.colorbuffer, context.depthbuffer, vary2 program, [0, 1], []⟩
  else if is_vertex_invisible (clip2 program) then
    ⟨context.colorbuffer, context.depthbuffer, vary3 program, [0, 1, 2], []⟩
  else if is_back_facing (ndc0 program) (ndc1 program) (ndc2 program) then
    ⟨context.colorbuffer, context.depthbuffer, vary3 program, [0, 1, 2], []⟩
  else
    let final := (pixelList (triBox context program)).foldl
      (pixel_step context.width program (screen0 context program)
        (screen1 context program) (screen2 context program)
        (screenPt0 context program) (screenPt1 context program)
        (screenPt2 context program))
      ⟨context.colorbuffer, context.depthbuffer, vary3 program, []⟩
    ⟨final.colorbuffer, final.depthbuffer, final.varyings, [0, 1, 2],
      final.frags⟩

/-- Context with the buffers replaced by the result of a draw call
(chaining of draw calls on one context). -/
def applyDraw {V : Type} (context : context_t) (program : program_t V) :
    context_t :=
  { context with
    colorbuffer := (gfx_draw_triangle context program).colorbuffer
    depthbuffer := (gfx_draw_triangle context program).depthbuffer }

/-- The spec's frustum condition `|x|>w ∨ |y|>w ∨ |z|>w` on a clip-space
vertex, written with float absolute value and comparison. -/
def clip_outside (c : vec4_t) : Prop :=
  F.gt (F.abs c.x) c.w = true ∨ F.gt (F.abs c.y) c.w = true ∨
    F.gt (F.abs c.z) c.w = true

/-- Pixel coordinates that address a real pixel of a `width`-wide buffer
row: the in-bounds condition under which distinct pixels have distinct
buffer indices. -/
def inBoundsPix (width : ℤ) (xy : ℤ × ℤ) : Prop :=
  0 ≤ xy.1 ∧ xy.1 < width ∧ 0 ≤ xy.2

/-- Pixel coordinates inside the `width × height` screen. -/
def inScreen (width height : ℤ) (xy : ℤ × ℤ) : Prop :=
  0 ≤ xy.1 ∧ xy.1 ≤ width - 1 ∧ 0 ≤ xy.2 ∧ xy.2 ≤ height - 1

/-- The three screen points of the triangle being drawn are finite. -/
def screenFinite {V : Type} (context : context_t) (program : program_t V) :
    Prop :=
  (screenPt0 context program).x.isFinite = true ∧
  (screenPt0 context program).y.isFinite = true ∧
  (screenPt1 context program).x.isFinite = true ∧
  (screenPt1 context program).y.isFinite = true ∧
  (screenPt2 context program).x.isFinite = true ∧
  (screenPt2 context program).y.isFinite = true

/-- Barycentric denominator `AB.x·AC.y - AB.y·AC.x` of the screen
triangle being drawn, exactly as computed inside `calculate_weights`. -/
def denomAt {V : Type} (context : context_t) (program : program_t V) : F :=
  F.sub
    (F.mul (vec2_sub (screenPt1 context program) (screenPt0 context program)).x
      (vec2_sub (screenPt2 context program) (screenPt0 context program)).y)
    (F.mul (vec2_sub (screenPt1 context program) (screenPt0 context program)).y
      (vec2_sub (screenPt2 context program) (screenPt0 context program)).x)

/-- Rounding to the nearest integer, following the spec's words for the
pixel write (`pixel[c] = round(clamp(color[c], 0, 1) · 255)`); the code
itself truncates instead. -/
def round_spec (q : ℚ) : ℤ := ⌊q + 1 / 2⌋

/-- Barycentric weights of the integer sample point of pixel `xy`
(the `calculate_weights` call of the loop body, graphics.c lines
189–192). -/
def sampleWeights (p0 p1 p2 : vec2_t) (xy : ℤ × ℤ) : vec3_t :=
  calculate_weights p0 p1 p2 ⟨F.fin (xy.1 : ℚ), F.fin (xy.2 : ℚ)⟩

/-- The combined guard under which the loop body shades pixel `xy`:
interior test and early depth test against the current depth buffer
(graphics.c lines 193 and 197). -/
def shadeCond (width : ℤ) (s0 s1 s2 : vec4_t) (p0 p1 p2 : vec2_t)
    (depthbuffer : ℤ → F) (xy : ℤ × ℤ) : Bool :=
  weights_inside (sampleWeights p0 p1 p2 xy) &&
    F.gt (depthbuffer (depthIndex width xy))
      (calculate_depth s0 s1 s2 (sampleWeights p0 p1 p2 xy))

/-! Camera model (camera.c), over `ℝ`: the construction path goes through
`acos`, so the camera floats are idealised as real numbers, with the
float constant `PI` idealised as `Real.pi`. -/

namespace Cam

noncomputable section

/-- Modelled from the spec: 3D vector of the external math module, over
the reals for the camera code. -/
structure vec3_t where
  x : ℝ
  y : ℝ
  z : ℝ

/-- Modelled from the spec: componentwise addition. -/
def vec3_add (a b : vec3_t) : vec3_t := ⟨a.x + b.x, a.y + b.y, a.z + b.z⟩

/-- Modelled from the spec: componentwise subtraction. -/
def vec3_sub (a b : vec3_t) : vec3_t := ⟨a.x - b.x, a.y - b.y, a.z - b.z⟩

/-- Modelled from the spec: componentwise scaling. -/
def vec3_scale (v : vec3_t) (factor : ℝ) : vec3_t :=
  ⟨v.x * factor, v.y * factor, v.z * factor⟩

/-- Modelled from the spec: dot product. -/
def vec3_dot (a b : vec3_t) : ℝ := a.x * b.x + a.y * b.y + a.z * b.z

/-- Modelled from the spec: cross product. -/
def vec3_cross (a b : vec3_t) : vec3_t :=
  ⟨a.y * b.z - a.z * b.y, a.z * b.x - a.x * b.z, a.x * b.y - a.y * b.x⟩

/-- Modelled from the spec: Euclidean length. -/
def vec3_length (v : vec3_t) : ℝ :=
  Real.sqrt (v.x * v.x + v.y * v.y + v.z * v.z)

/-- Modelled from the spec: normalization, dividing by the length. -/
def vec3_normalize (v : vec3_t) : vec3_t :=
  ⟨v.x / vec3_length v, v.y / vec3_length v, v.z / vec3_length v⟩

/-- Modelled from the spec: `atan2(y, x)` with the usual C semantics. -/
def atan2 (y x : ℝ) : ℝ :=
  if 0 < x then Real.arctan (y / x)
  else if x < 0 then
    (if 0 ≤ y then Real.arctan (y / x) + Real.pi
     else Real.arctan (y / x) - Real.pi)
  else if 0 < y then Real.pi / 2
  else if y < 0 then -(Real.pi / 2)
  else 0

/-- Camera options record (camera.h `camopt_t`). -/
structure camopt_t where
  move_speed : ℝ
  rotate_speed : ℝ
  zoom_speed : ℝ
  pitch_upper : ℝ
  pitch_lower : ℝ
  fovy_default : ℝ
  fovy_minimum : ℝ
  aspect : ℝ
  depth_near : ℝ
  depth_far : ℝ

/-- Camera state (camera.c `struct camera`). -/
structure camera where
  position : vec3_t
  front : vec3_t
  right : vec3_t
  up : vec3_t
  pitch : ℝ
  yaw : ℝ
  fovy : ℝ
  rotating : Bool
  last_x_pos : ℤ
  last_y_pos : ℤ
  options : camopt_t

/-- Modelled from the spec: window/input state of the platform module
(§6): mouse button state, cursor position, WASD key state. -/
structure window_t where
  button_l : Bool
  button_r : Bool
  cursor_x : ℤ
  cursor_y : ℤ
  key_a : Bool
  key_d : Bool
  key_s : Bool
  key_w : Bool

/-- Global constant `WORLD_UP` (camera.c line 11). -/
def WORLD_UP : vec3_t := ⟨0, 1, 0⟩

/-- Default constants of camera.c lines 13–24. -/
def MOVE_SPEED : ℝ := 5 / 2

/-- Default rotate speed. -/
def ROTATE_SPEED : ℝ := 10

/-- Default zoom speed. -/
def ZOOM_SPEED : ℝ := 100

/-- Default upper pitch limit. -/
def PITCH_UPPER : ℝ := 89

/-- Default lower pitch limit. -/
def PITCH_LOWER : ℝ := -89

/-- Default vertical field of view. -/
def FOVY_DEFAULT : ℝ := 60

/-- Minimum vertical field of view. -/
def FOVY_MINIMUM : ℝ := 15

/-- Default near plane depth. -/
def DEPTH_NEAR : ℝ := 1

/-- Default far plane depth. -/
def DEPTH_FAR : ℝ := 100

/-- Translation of camera.c `degree_to_radian` (lines 50–52). -/
def degree_to_radian (degree : ℝ) : ℝ := degree * Real.pi / 180

/-- Translation of camera.c `radian_to_degree` (lines 54–56). -/
def radian_to_degree (radian : ℝ) : ℝ := radian * 180 / Real.pi

/-- Translation of camera.c `max_float` (lines 58–60). -/
def max_float (a b : ℝ) : ℝ := if b < a then a else b

/-- Translation of camera.c `min_float` (lines 62–64). -/
def min_float (a b : ℝ) : ℝ := if a < b then a else b

/-- Translation of camera.c `clamp_float` (lines 66–69); the C function
asserts `min <= max`. -/
def clamp_float (a min max : ℝ) : ℝ :=
  if a < min then min else if max < a then max else a

/-- Translation of camera.c `calculate_pitch` (lines 73–79). -/
def calculate_pitch (front : vec3_t) : ℝ :=
  radian_to_degree (Real.pi / 2 - Real.arccos (vec3_dot front WORLD_UP))

/-- Translation of camera.c `calculate_yaw` (lines 81–84). -/
def calculate_yaw (front : vec3_t) : ℝ :=
  radian_to_degree (atan2 front.z front.x)

/-- Translation of camera.c `get_default_options` (lines 86–104). -/
def get_default_options (aspect : ℝ) : camopt_t :=
  { move_speed := MOVE_SPEED
    rotate_speed := ROTATE_SPEED
    zoom_speed := ZOOM_SPEED
    pitch_upper := PITCH_UPPER
    pitch_lower := PITCH_LOWER
    fovy_default := FOVY_DEFAULT
    fovy_minimum := FOVY_MINIMUM
    aspect := aspect
    depth_near := DEPTH_NEAR
    depth_far := DEPTH_FAR }

/-- Translation of camera.c `camera_create` (lines 106–129).  The C
function asserts `|forward| > 1e-6`, `|forward × WORLD_UP| > 1e-6` and
`aspect > 0`; the model is total and theorems carry those preconditions
where they matter. -/
def camera_create (position forward : vec3_t) (aspect : ℝ) : camera :=
  let front := vec3_normalize forward
  let right := vec3_cross front WORLD_UP
  { position := position
    front := front
    right := right
    up := vec3_cross right front
    pitch := calculate_pitch front
    yaw := calculate_yaw front
    fovy := FOVY_DEFAULT
    rotating := false
    last_x_pos := -1
    last_y_pos := -1
    options := get_default_options aspect }

/-- Translation of camera.c `camera_set_options` (lines 141–148).  The C
function asserts `pitch_upper >= pitch_lower`,
`fovy_default >= fovy_minimum > 0`, `aspect > 0` and
`depth_far > depth_near > 0` before storing the record. -/
def camera_set_options (cam : camera) (options : camopt_t) : camera :=
  { cam with options := options }

/-- Translation of camera.c `update_orien_vectors` (lines 152–165). -/
def update_orien_vectors (cam : camera) : camera :=
  let yaw := degree_to_radian cam.yaw
  let pitch := degree_to_radian cam.pitch
  let front0 : vec3_t :=
    ⟨Real.cos yaw * Real.cos pitch, Real.sin pitch,
      Real.sin yaw * Real.cos pitch⟩
  let front := vec3_normalize front0
  let right := vec3_cross front WORLD_UP
  { cam with front := front, right := right, up := vec3_cross right front }

/-- Translation of camera.c `rotate_camera` (lines 167–189). -/
def rotate_camera (cam : camera) (window : window_t) (delta_time : ℝ) :
    camera :=
  if window.button_l then
    let x_pos := window.cursor_x
    let y_pos := window.cursor_y
    let cam1 :=
      if cam.rotating then
        let x_offset : ℤ := x_pos - cam.last_x_pos
        let y_offset : ℤ := y_pos - cam.last_y_pos
        update_orien_vectors
          { cam with
            yaw := cam.yaw -
              (x_offset : ℝ) * cam.options.rotate_speed * delta_time
            pitch := clamp_float
              (cam.pitch +
                (y_offset : ℝ) * cam.options.rotate_speed * delta_time)
              cam.options.pitch_lower cam.options.pitch_upper }
      else { cam with rotating := true }
    { cam1 with last_x_pos := x_pos, last_y_pos := y_pos }
  else { cam with rotating := false }

/-- Translation of camera.c `zoom_camera` (lines 191–203). -/
def zoom_camera (cam : camera) (window : window_t) (delta_time : ℝ) :
    camera :=
  let fovy0 := clamp_float cam.fovy cam.options.fovy_minimum
    cam.options.fovy_default
  if window.button_r then
    { cam with
      fovy := (max_float (fovy0 - cam.options.zoom_speed * delta_time)
        cam.options.fovy_minimum) }
  else
    { cam with
      fovy := (min_float (fovy0 + cam.options.zoom_speed * delta_time)
        cam.options.fovy_default) }

/-- Translation of camera.c `move_camera` (lines 205–225). -/
def move_camera (cam : camera) (window : window_t) (delta_time : ℝ) :
    camera :=
  let d0 : vec3_t := ⟨0, 0, 0⟩
  let d1 := if window.key_a then vec3_sub d0 cam.right else d0
  let d2 := if window.key_d then vec3_add d1 cam.right else d1
  let d3 := if window.key_s then vec3_sub d2 cam.front else d2
  let direction := if window.key_w then vec3_add d3 cam.front else d3
  if vec3_length direction > 1 / 1000000 then
    let distance := cam.options.move_speed * delta_time
    { cam with
      position := (vec3_add cam.position
        (vec3_scale (vec3_normalize direction) distance)) }
  else cam

/-- Translation of camera.c `camera_process_input` (lines 227–232):
rotate, then zoom, then move. -/
def camera_process_input (cam : camera) (window : window_t)
    (delta_time : ℝ) : camera :=
  move_camera (zoom_camera (rotate_camera cam window delta_time) window
    delta_time) window delta_time

end

end Cam

/-! Concrete instances used to exercise the theorems on closed inputs. -/

/-- A 2×2 viewport matrix mapping NDC to the screen square `[0,2]²` with
depth mapped to `[0,1]`: `x' = x + 1`, `y' = y + 1`, `z' = z/2 + 1/2`. -/
def viewport2 : mat4_t :=
  { r0 := ⟨F.fin 1, F.fin 0, F.fin 0, F.fin 1⟩
    r1 := ⟨F.fin 0, F.fin 1, F.fin 0, F.fin 1⟩
    r2 := ⟨F.fin 0, F.fin 0, F.fin (1 / 2), F.fin (1 / 2)⟩
    r3 := ⟨F.fin 0, F.fin 0, F.fin 0, F.fin 1⟩ }

/-- A freshly cleared 2×2 context (depth far away, color zero). -/
def ctx2 : context_t :=
  { width := 2
    height := 2
    viewport := viewport2
    colorbuffer := fun _ => 0
    depthbuffer := fun _ => F.fin 1000 }

/-- Program with constant per-vertex clip outputs, trivial varyings and a
constant fragment color. -/
def constProgram (c0 c1 c2 col : vec4_t) : program_t Unit :=
  { vertex_shader := fun nth _ =>
      (if nth = 0 then c0 else if nth = 1 then c1 else c2, ())
    interp_varyings := fun v _ => v
    fragment_shader := fun _ => col
    varyings := () }

/-- Counter-clockwise triangle at constant NDC depth `z` covering the
lower-left half of the NDC square, with a constant fragment color. -/
def triProg (z : ℚ) (col : vec4_t) : program_t Unit :=
  constProgram ⟨F.fin (-1), F.fin (-1), F.fin z, F.fin 1⟩
    ⟨F.fin 1, F.fin (-1), F.fin z, F.fin 1⟩
    ⟨F.fin (-1), F.fin 1, F.fin z, F.fin 1⟩ col

/-- Red counter-clockwise triangle at NDC depth 0 covering the screen. -/
def progA : program_t Unit :=
  triProg 0 ⟨F.fin 1, F.fin 0, F.fin 0, F.fin 1⟩

/-- Green triangle with the same screen footprint as `progA` but at NDC
depth 1/2 (farther away). -/
def progB : program_t Unit :=
  triProg (1 / 2) ⟨F.fin 0, F.fin 1, F.fin 0, F.fin 1⟩

/-- Triangle of `progA` with fragment color channel `1/2`, whose written
byte separates truncation from rounding. -/
def progHalf : program_t Unit :=
  triProg 0 ⟨F.fin (1 / 2), F.fin 0, F.fin 0, F.fin 1⟩

/-- Program whose first vertex is outside the view volume
(`x = 2 > w = 1`). -/
def progInvis : program_t Unit :=
  constProgram ⟨F.fin 2, F.fin 0, F.fin 0, F.fin 1⟩
    ⟨F.fin 0, F.fin (1 / 2), F.fin 0, F.fin 1⟩
    ⟨F.fin (1 / 2), F.fin 0, F.fin 0, F.fin 1⟩
    ⟨F.fin 1, F.fin 1, F.fin 1, F.fin 1⟩

/-- Clockwise (back-facing) variant of `progA`: vertices 1 and 2 are
swapped. -/
def progCW : program_t Unit :=
  constProgram ⟨F.fin (-1), F.fin (-1), F.fin 0, F.fin 1⟩
    ⟨F.fin (-1), F.fin 1, F.fin 0, F.fin 1⟩
    ⟨F.fin 1, F.fin (-1), F.fin 0, F.fin 1⟩
    ⟨F.fin 1, F.fin 0, F.fin 0, F.fin 1⟩

/-- Degenerate program: the three vertices are collinear in screen space
(and in NDC), so the barycentric denominator is zero. -/
def progCol : program_t Unit :=
  constProgram ⟨F.fin (-1), F.fin (-1), F.fin 0, F.fin 1⟩
    ⟨F.fin 0, F.fin 0, F.fin 0, F.fin 1⟩
    ⟨F.fin 1, F.fin 1, F.fin 0, F.fin 1⟩
    ⟨F.fin 1, F.fin 1, F.fin 1, F.fin 1⟩

/-! Concrete camera instances. -/

noncomputable section

/-- Camera created looking down the positive x axis with aspect 1. -/
def cam8 : Cam.camera := Cam.camera_create ⟨0, 0, 0⟩ ⟨1, 0, 0⟩ 1

/-- Valid camera options whose pitch range excludes pitch 0. -/
def opts7 : Cam.camopt_t :=
  { move_speed := 5 / 2
    rotate_speed := 10
    zoom_speed := 100
    pitch_upper := 20
    pitch_lower := 10
    fovy_default := 60
    fovy_minimum := 15
    aspect := 1
    depth_near := 1
    depth_far := 100 }

/-- The camera of `cam8` after installing `opts7`. -/
def cam7 : Cam.camera := Cam.camera_set_options cam8 opts7

/-- A camera in the middle of a rotation drag (defaults, pitch 0). -/
def camRot : Cam.camera :=
  { position := ⟨0, 0, 0⟩
    front := ⟨1, 0, 0⟩
    right := ⟨0, 0, 1⟩
    up := ⟨0, 1, 0⟩
    pitch := 0
    yaw := 0
    fovy := 60
    rotating := true
    last_x_pos := 0
    last_y_pos := 0
    options := Cam.get_default_options 1 }

/-- Window with no buttons or keys pressed. -/
def win_idle : Cam.window_t :=
  { button_l := false
    button_r := false
    cursor_x := 0
    cursor_y := 0
    key_a := false
    key_d := false
    key_s := false
    key_w := false }

/-- Window with only the right mouse button held. -/
def win_r : Cam.window_t := { win_idle with button_r := true }

/-- Window with the left mouse button held and the cursor far below the
camera's remembered position. -/
def win_l : Cam.window_t := { win_idle with button_l := true, cursor_y := 100 }

end

/-! Evaluation lemmas for the float model. -/

/-- Addition of finite values is exact rational addition. -/
@[simp]
theorem F.add_fin_fin (a b : ℚ) : F.add (F.fin a) (F.fin b) = F.fin (a + b) :=
  rfl

/-- Negation of a finite value. -/
@[simp]
theorem F.neg_fin (a : ℚ) : F.neg (F.fin a) = F.fin (-a) := rfl

/-- Subtraction of finite values is exact rational subtraction. -/
@[simp]
theorem F.sub_fin_fin (a b : ℚ) : F.sub (F.fin a) (F.fin b) = F.fin (a - b) := by
  simp [F.sub, sub_eq_add_neg]

/-- Multiplication of finite values is exact rational multiplication. -/
@[simp]
theorem F.mul_fin_fin (a b : ℚ) : F.mul (F.fin a) (F.fin b) = F.fin (a * b) :=
  rfl

/-- Division of finite values with a nonzero divisor. -/
theorem F.div_fin_fin (a : ℚ) {b : ℚ} (h : b ≠ 0) :
    F.div (F.fin a) (F.fin b) = F.fin (a / b) := by
  simp [F.div, h]

/-- The comparison `<` on finite values. -/
@[simp]
theorem F.lt_fin_fin (a b : ℚ) : F.lt (F.fin a) (F.fin b) = decide (a < b) :=
  rfl

/-- The comparison `<=` on finite values. -/
@[simp]
theorem F.le_fin_fin (a b : ℚ) : F.le (F.fin a) (F.fin b) = decide (a ≤ b) :=
  rfl

/-- The comparison `>` on finite values. -/
@[simp]
theorem F.gt_fin_fin (a b : ℚ) : F.gt (F.fin a) (F.fin b) = decide (b < a) :=
  rfl

/-- The comparison `>=` on finite values. -/
@[simp]
theorem F.ge_fin_fin (a b : ℚ) : F.ge (F.fin a) (F.fin b) = decide (b ≤ a) :=
  rfl

/-- Finite values are finite. -/
@[simp]
theorem F.isFinite_fin (a : ℚ) : (F.fin a).isFinite = true := rfl

/-- Absolute value of a finite value. -/
@[simp]
theorem F.abs_fin (a : ℚ) : F.abs (F.fin a) = F.fin |a| := rfl

/-- The float order is asymmetric (on any values, including specials). -/
theorem F.lt_asymm {a b : F} (h : F.lt a b = true) : F.lt b a = false := by
  cases a <;> cases b <;> simp_all [F.lt] <;> linarith

/-- Dividing anything by (positive) float zero never yields a finite
value: the result is `±inf`, or `nan` for `0/0`. -/
theorem F.div_fin_zero_not_finite (n : F) :
    (F.div n (F.fin 0)).isFinite = false := by
  cases n <;> simp [F.div, F.isFinite] <;> split_ifs <;> simp [F.isFinite]

/-! Evaluation lemmas for the C float-to-int cast. -/

/-- Truncation of a nonnegative rational is the floor. -/
theorem truncQ_of_nonneg {q : ℚ} (h : 0 ≤ q) : truncQ q = ⌊q⌋ := if_pos h

/-- Truncation of a negative rational is the ceiling. -/
theorem truncQ_of_neg {q : ℚ} (h : q < 0) : truncQ q = ⌈q⌉ :=
  if_neg (not_le.mpr h)

/-- Computation rule for `truncQ` on nonnegative inputs. -/
theorem truncQ_eq_of_nonneg {q : ℚ} (n : ℤ) (h0 : 0 ≤ q) (h1 : (n : ℚ) ≤ q)
    (h2 : q < n + 1) : truncQ q = n := by
  rw [truncQ_of_nonneg h0]
  exact Int.floor_eq_iff.mpr ⟨by exact_mod_cast h1, by exact_mod_cast h2⟩

/-- Lower bounds below `q` are lower bounds of `truncQ q`. -/
theorem le_truncQ {x : ℤ} {q : ℚ} (h : (x : ℚ) ≤ q) : x ≤ truncQ q := by
  unfold truncQ
  split_ifs
  · exact Int.le_floor.mpr h
  · calc x = ⌈(x : ℚ)⌉ := (Int.ceil_intCast x).symm
      _ ≤ ⌈q⌉ := Int.ceil_le_ceil h

/-- Integer bounds above `q` bound `truncQ q` from above. -/
theorem truncQ_le {x : ℤ} {q : ℚ} (h : q ≤ (x : ℚ)) : truncQ q ≤ x := by
  unfold truncQ
  split_ifs
  · exact Int.floor_le_floor h |>.trans_eq (Int.floor_intCast x)
  · exact Int.ceil_le.mpr h

/-- Truncation bound from a strict bound one above. -/
theorem truncQ_le_of_lt_add_one {x : ℤ} {q : ℚ} (h : q < (x : ℚ) + 1)
    (hx : 0 ≤ x) : truncQ q ≤ x := by
  unfold truncQ
  split_ifs with h0
  · exact Int.lt_add_one_iff.mp (Int.floor_lt.mpr (by exact_mod_cast h))
  · exact Int.ceil_le.mpr (le_of_lt (lt_of_lt_of_le (not_le.mp h0)
      (by exact_mod_cast hx)))

/-! Minimum and maximum helpers evaluated on finite floats. -/

/-- The 4-argument `min_float` of graphics.c on finite inputs: minimum of
the three values, clamped from below. -/
theorem min_float_fin (a b c l : ℚ) :
    min_float (F.fin a) (F.fin b) (F.fin c) (F.fin l) =
      F.fin (max (min (min a b) c) l) := by
  simp only [min_float]
  split_ifs <;>
    simp only [F.lt_fin_fin, decide_eq_true_eq, Bool.not_eq_true,
      decide_eq_false_iff_not] at * <;>
    refine congrArg F.fin ?_ <;>
    simp only [min_def, max_def] <;>
    split_ifs <;> linarith

/-- The 4-argument `max_float` of graphics.c on finite inputs: maximum of
the three values, clamped from above. -/
theorem max_float_fin (a b c u : ℚ) :
    max_float (F.fin a) (F.fin b) (F.fin c) (F.fin u) =
      F.fin (min (max (max a b) c) u) := by
  simp only [max_float]
  split_ifs <;>
    simp only [F.gt_fin_fin, decide_eq_true_eq, Bool.not_eq_true,
      decide_eq_false_iff_not] at * <;>
    refine congrArg F.fin ?_ <;>
    simp only [min_def, max_def] <;>
    split_ifs <;> linarith

/-- C5 amended computation: the bounding box on finite screen points.
Mins are the truncation of the coordinate minimum pre-clamped from below
at 0; maxes are the truncation of the coordinate maximum pre-clamped from
above at `width-1` (resp. `height-1`) plus `1/2`. -/
theorem find_bounding_box_fin (width height : ℤ) (x0 y0 x1 y1 x2 y2 : ℚ) :
    find_bounding_box width height ⟨F.fin x0, F.fin y0⟩ ⟨F.fin x1, F.fin y1⟩
        ⟨F.fin x2, F.fin y2⟩ =
      { min_x := truncQ (max (min (min x0 x1) x2) 0)
        min_y := truncQ (max (min (min y0 y1) y2) 0)
        max_x := truncQ (min (max (max x0 x1) x2) ((width : ℚ) - 1) + 1 / 2)
        max_y := truncQ (min (max (max y0 y1) y2) ((height : ℚ) - 1) + 1 / 2) } := by
  simp [find_bounding_box, min_float_fin, max_float_fin, castInt]

/-! Camera helper lemmas. -/

/-- The clamp helper lands in the interval when the interval is
nonempty (the C function asserts `min <= max`). -/
theorem Cam.clamp_float_mem {a lo hi : ℝ} (h : lo ≤ hi) :
    lo ≤ Cam.clamp_float a lo hi ∧ Cam.clamp_float a lo hi ≤ hi := by
  unfold Cam.clamp_float
  split_ifs <;> constructor <;> linarith

/-- Rotation does not touch the options record. -/
theorem Cam.rotate_camera_options (cam : Cam.camera) (window : Cam.window_t)
    (dt : ℝ) : (Cam.rotate_camera cam window dt).options = cam.options := by
  unfold Cam.rotate_camera Cam.update_orien_vectors
  split_ifs <;> rfl

/-- Rotation does not touch the field of view. -/
theorem Cam.rotate_camera_fovy (cam : Cam.camera) (window : Cam.window_t)
    (dt : ℝ) : (Cam.rotate_camera cam window dt).fovy = cam.fovy := by
  unfold Cam.rotate_camera Cam.update_orien_vectors
  split_ifs <;> rfl

/-- Zooming does not touch the pitch. -/
theorem Cam.zoom_camera_pitch (cam : Cam.camera) (window : Cam.window_t)
    (dt : ℝ) : (Cam.zoom_camera cam window dt).pitch = cam.pitch := by
  unfold Cam.zoom_camera
  split_ifs <;> rfl

/-- Zooming does not touch the options record. -/
theorem Cam.zoom_camera_options (cam : Cam.camera) (window : Cam.window_t)
    (dt : ℝ) : (Cam.zoom_camera cam window dt).options = cam.options := by
  unfold Cam.zoom_camera
  split_ifs <;> rfl

/-- Moving does not touch the pitch. -/
theorem Cam.move_camera_pitch (cam : Cam.camera) (window : Cam.window_t)
    (dt : ℝ) : (Cam.move_camera cam window dt).pitch = cam.pitch := by
  unfold Cam.move_camera
  dsimp only
  split_ifs <;> rfl

/-- Moving does not touch the field of view. -/
theorem Cam.move_camera_fovy (cam : Cam.camera) (window : Cam.window_t)
    (dt : ℝ) : (Cam.move_camera cam window dt).fovy = cam.fovy := by
  unfold Cam.move_camera
  dsimp only
  split_ifs <;> rfl

/-- Moving does not touch the options record. -/
theorem Cam.move_camera_options (cam : Cam.camera) (window : Cam.window_t)
    (dt : ℝ) : (Cam.move_camera cam window dt).options = cam.options := by
  unfold Cam.move_camera
  dsimp only
  split_ifs <;> rfl

/-- Input processing does not touch the options record. -/
theorem Cam.process_input_options (cam : Cam.camera) (window : Cam.window_t)
    (dt : ℝ) :
    (Cam.camera_process_input cam window dt).options = cam.options := by
  unfold Cam.camera_process_input
  rw [Cam.move_camera_options, Cam.zoom_camera_options,
    Cam.rotate_camera_options]

/-- Pitch after an active rotation step (left button held, camera already
rotating): the incremented angle clamped into the configured range. -/
theorem Cam.rotate_camera_pitch_active (cam : Cam.camera)
    (window : Cam.window_t) (dt : ℝ) (h1 : window.button_l = true)
    (h2 : cam.rotating = true) :
    (Cam.rotate_camera cam window dt).pitch =
      Cam.clamp_float
        (cam.pitch +
          ((window.cursor_y - cam.last_y_pos : ℤ) : ℝ) *
            cam.options.rotate_speed * dt)
        cam.options.pitch_lower cam.options.pitch_upper := by
  simp [Cam.rotate_camera, Cam.update_orien_vectors, h1, h2]

/-- Pitch is untouched by a rotation step that applies no delta (left
button up, or the first frame of a drag). -/
theorem Cam.rotate_camera_pitch_idle (cam : Cam.camera)
    (window : Cam.window_t) (dt : ℝ)
    (h : window.button_l = false ∨ cam.rotating = false) :
    (Cam.rotate_camera cam window dt).pitch = cam.pitch := by
  unfold Cam.rotate_camera Cam.update_orien_vectors
  rcases h with h | h <;> rw [h] <;> simp <;> split_ifs <;> rfl

/-- Field of view after the zoom substep, as a case split on the right
mouse button. -/
theorem Cam.zoom_camera_fovy (cam : Cam.camera) (window : Cam.window_t)
    (dt : ℝ) :
    (Cam.zoom_camera cam window dt).fovy =
      if window.button_r then
        Cam.max_float
          (Cam.clamp_float cam.fovy cam.options.fovy_minimum
              cam.options.fovy_default - cam.options.zoom_speed * dt)
          cam.options.fovy_minimum
      else
        Cam.min_float
          (Cam.clamp_float cam.fovy cam.options.fovy_minimum
              cam.options.fovy_default + cam.options.zoom_speed * dt)
          cam.options.fovy_default := by
  unfold Cam.zoom_camera
  split_ifs <;> rfl

/-- C7 amended: after `camera_process_input`, the pitch lies in
`[pitch_lower, pitch_upper]` whenever the call applied a rotation delta
(left button held and the camera already in the rotating state); any
other call leaves the pitch unchanged — so a pitch that starts outside
the configured range stays where it is until the user drags. -/
theorem c7_pitch_clamp_amended (cam : Cam.camera) (window : Cam.window_t)
    (dt : ℝ) (h : cam.options.pitch_lower ≤ cam.options.pitch_upper) :
    (window.button_l = true → cam.rotating = true →
      cam.options.pitch_lower ≤ (Cam.camera_process_input cam window dt).pitch ∧
        (Cam.camera_process_input cam window dt).pitch ≤
          cam.options.pitch_upper) ∧
    (window.button_l = false ∨ cam.rotating = false →
      (Cam.camera_process_input cam window dt).pitch = cam.pitch) := by
  have hp : (Cam.camera_process_input cam window dt).pitch =
      (Cam.rotate_camera cam window dt).pitch := by
    unfold Cam.camera_process_input
    rw [Cam.move_camera_pitch, Cam.zoom_camera_pitch]
  constructor
  · intro h1 h2
    rw [hp, Cam.rotate_camera_pitch_active cam window dt h1 h2]
    exact Cam.clamp_float_mem h
  · intro h1
    rw [hp, Cam.rotate_camera_pitch_idle cam window dt h1]

/-- Witness for the amended C7 theorem on a concrete rotating camera and
a concrete drag. -/
theorem c7_pitch_clamp_amended_witness :
    camRot.options.pitch_lower ≤
        (Cam.camera_process_input camRot win_l 1).pitch ∧
      (Cam.camera_process_input camRot win_l 1).pitch ≤
        camRot.options.pitch_upper :=
  (c7_pitch_clamp_amended camRot win_l 1
      (by norm_num [camRot, Cam.get_default_options, Cam.PITCH_LOWER,
        Cam.PITCH_UPPER])).1 rfl rfl

/-- C7 counterexample: a camera created looking along the x axis has
pitch 0; installing valid options with `pitch_lower = 10` (all the
`camera_set_options` assertions hold) and processing input with no
buttons held leaves the pitch at 0, outside `[pitch_lower, pitch_upper]`.
The claim that the pitch invariant holds after every `process_input`
call is therefore false as stated. -/
theorem c7_counterexample :
    (opts7.pitch_upper ≥ opts7.pitch_lower ∧
      opts7.fovy_default ≥ opts7.fovy_minimum ∧ opts7.fovy_minimum > 0 ∧
      opts7.aspect > 0 ∧ opts7.depth_far > opts7.depth_near ∧
      opts7.depth_near > 0) ∧
    (Cam.camera_process_input cam7 win_idle 1).pitch = 0 ∧
    ¬((Cam.camera_process_input cam7 win_idle 1).options.pitch_lower ≤
        (Cam.camera_process_input cam7 win_idle 1).pitch) := by
  have hp : (Cam.camera_process_input cam7 win_idle 1).pitch = cam7.pitch := by
    have h : (Cam.camera_process_input cam7 win_idle 1).pitch =
        (Cam.rotate_camera cam7 win_idle 1).pitch := by
      unfold Cam.camera_process_input
      rw [Cam.move_camera_pitch, Cam.zoom_camera_pitch]
    rw [h, Cam.rotate_camera_pitch_idle cam7 win_idle 1 (Or.inl rfl)]
  have hpc : cam7.pitch = 0 := by
    show (Cam.camera_set_options cam8 opts7).pitch = 0
    have : cam8.pitch = 0 := by
      show (Cam.camera_create ⟨0, 0, 0⟩ ⟨1, 0, 0⟩ 1).pitch = 0
      simp [Cam.camera_create, Cam.calculate_pitch, Cam.vec3_dot,
        Cam.vec3_normalize, Cam.WORLD_UP, Cam.radian_to_degree,
        Real.arccos_zero]
    simpa [Cam.camera_set_options]
  refine ⟨by norm_num [opts7], by rw [hp, hpc], ?_⟩
  rw [hp, hpc, Cam.process_input_options]
  show ¬(cam7.options.pitch_lower ≤ 0)
  norm_num [cam7, Cam.camera_set_options, opts7]

/-- C8 amended: after `camera_process_input`, the field of view lies in
`[fovy_minimum, fovy_default]` provided the zoom step moves it in the
intended direction, i.e. `zoom_speed · dt ≥ 0` (true for the actual
nonnegative frame times and the asserted positive default speed); a
negative product escapes the range because each branch clamps on one
side only. -/
theorem c8_fovy_clamp_amended (cam : Cam.camera) (window : Cam.window_t)
    (dt : ℝ) (h1 : cam.options.fovy_minimum ≤ cam.options.fovy_default)
    (h2 : 0 ≤ cam.options.zoom_speed * dt) :
    cam.options.fovy_minimum ≤ (Cam.camera_process_input cam window dt).fovy ∧
      (Cam.camera_process_input cam window dt).fovy ≤
        cam.options.fovy_default := by
  have hf : (Cam.camera_process_input cam window dt).fovy =
      (Cam.zoom_camera (Cam.rotate_camera cam window dt) window dt).fovy := by
    unfold Cam.camera_process_input
    rw [Cam.move_camera_fovy]
  rw [hf, Cam.zoom_camera_fovy, Cam.rotate_camera_options,
    Cam.rotate_camera_fovy]
  have hc := Cam.clamp_float_mem (a := cam.fovy) h1
  unfold Cam.max_float Cam.min_float
  split_ifs <;> constructor <;> linarith

/-- Witness for the amended C8 theorem: the created default camera, right
button held, one second of input. -/
theorem c8_fovy_clamp_amended_witness :
    cam8.options.fovy_minimum ≤ (Cam.camera_process_input cam8 win_r 1).fovy ∧
      (Cam.camera_process_input cam8 win_r 1).fovy ≤
        cam8.options.fovy_default :=
  c8_fovy_clamp_amended cam8 win_r 1
    (by norm_num [cam8, Cam.camera_create, Cam.get_default_options,
      Cam.FOVY_MINIMUM, Cam.FOVY_DEFAULT])
    (by norm_num [cam8, Cam.camera_create, Cam.get_default_options,
      Cam.ZOOM_SPEED])

/-- C8 counterexample: with the right button held and `dt = -1`, the
default camera's fovy becomes `60 + 100 = 160`, far above
`fovy_default = 60`: the claimed invariant does not hold for arbitrary
`dt`, because the right-button branch clamps only from below. -/
theorem c8_counterexample :
    (Cam.camera_process_input cam8 win_r (-1)).fovy = 160 ∧
      ¬((Cam.camera_process_input cam8 win_r (-1)).fovy ≤
        (Cam.camera_process_input cam8 win_r (-1)).options.fovy_default) := by
  have hf : (Cam.camera_process_input cam8 win_r (-1)).fovy =
      (Cam.zoom_camera (Cam.rotate_camera cam8 win_r (-1)) win_r (-1)).fovy := by
    unfold Cam.camera_process_input
    rw [Cam.move_camera_fovy]
  have hv : (Cam.camera_process_input cam8 win_r (-1)).fovy = 160 := by
    rw [hf, Cam.zoom_camera_fovy, Cam.rotate_camera_options,
      Cam.rotate_camera_fovy]
    have hb : win_r.button_r = true := rfl
    rw [if_pos hb]
    have h8f : cam8.fovy = 60 := by
      norm_num [cam8, Cam.camera_create, Cam.FOVY_DEFAULT]
    have h8min : cam8.options.fovy_minimum = 15 := by
      norm_num [cam8, Cam.camera_create, Cam.get_default_options,
        Cam.FOVY_MINIMUM]
    have h8max : cam8.options.fovy_default = 60 := by
      norm_num [cam8, Cam.camera_create, Cam.get_default_options,
        Cam.FOVY_DEFAULT]
    have h8z : cam8.options.zoom_speed = 100 := by
      norm_num [cam8, Cam.camera_create, Cam.get_default_options,
        Cam.ZOOM_SPEED]
    rw [h8f, h8min, h8max, h8z]
    norm_num [Cam.clamp_float, Cam.max_float]
  refine ⟨hv, ?_⟩
  rw [hv, Cam.process_input_options]
  norm_num [cam8, Cam.camera_create, Cam.get_default_options,
    Cam.FOVY_DEFAULT]

/-! Claim C5: bounding box. -/

/-- C5 counterexample: for the screen triangle with x coordinates
`1/5, 11/5, 1` on a 4×4 screen, the code computes `max_x = 2`
(truncation of `11/5 + 1/2`), while the claimed
`ceil(max(point[*].x))` clamped into `[0, 3]` equals `3`. -/
theorem c5_counterexample :
    (find_bounding_box 4 4 ⟨F.fin (1 / 5), F.fin 0⟩
        ⟨F.fin (11 / 5), F.fin (7 / 5)⟩ ⟨F.fin 1, F.fin 1⟩).max_x = 2 ∧
      ⌈max (max (1 / 5 : ℚ) (11 / 5)) 1⌉ = 3 ∧ (2 : ℤ) ≠ 3 := by
  refine ⟨?_, ?_, by decide⟩
  · rw [find_bounding_box_fin]
    show truncQ (min (max (max (1 / 5 : ℚ) (11 / 5)) 1) ((4 : ℚ) - 1) + 1 / 2) = 2
    have hv : min (max (max (1 / 5 : ℚ) (11 / 5)) 1) ((4 : ℚ) - 1) + 1 / 2 =
        27 / 10 := by
      rw [max_eq_right (by norm_num : (1 / 5 : ℚ) ≤ 11 / 5),
        max_eq_left (by norm_num : (1 : ℚ) ≤ 11 / 5),
        min_eq_left (by norm_num : (11 / 5 : ℚ) ≤ (4 : ℚ) - 1)]
      norm_num
    rw [hv]
    exact truncQ_eq_of_nonneg 2 (by norm_num) (by norm_num) (by norm_num)
  · rw [max_eq_right (by norm_num : (1 / 5 : ℚ) ≤ 11 / 5),
      max_eq_left (by norm_num : (1 : ℚ) ≤ 11 / 5)]
    rw [Int.ceil_eq_iff]
    norm_num

/-- C5 amended: for a triangle with finite screen points, the code
computes `min_x` as the float-to-int truncation of the minimum
x coordinate pre-clamped from below at 0 (no upper clamp), and `max_x`
as the truncation of the maximum x coordinate pre-clamped from above at
`width - 1`, plus `1/2` — i.e. round-half-up of the clamped maximum, not
a ceiling; similarly for y with `height - 1`. -/
theorem c5_bounding_box_amended (width height : ℤ) (x0 y0 x1 y1 x2 y2 : ℚ) :
    (find_bounding_box width height ⟨F.fin x0, F.fin y0⟩ ⟨F.fin x1, F.fin y1⟩
        ⟨F.fin x2, F.fin y2⟩).min_x = truncQ (max (min (min x0 x1) x2) 0) ∧
    (find_bounding_box width height ⟨F.fin x0, F.fin y0⟩ ⟨F.fin x1, F.fin y1⟩
        ⟨F.fin x2, F.fin y2⟩).min_y = truncQ (max (min (min y0 y1) y2) 0) ∧
    (find_bounding_box width height ⟨F.fin x0, F.fin y0⟩ ⟨F.fin x1, F.fin y1⟩
        ⟨F.fin x2, F.fin y2⟩).max_x =
      truncQ (min (max (max x0 x1) x2) ((width : ℚ) - 1) + 1 / 2) ∧
    (find_bounding_box width height ⟨F.fin x0, F.fin y0⟩ ⟨F.fin x1, F.fin y1⟩
        ⟨F.fin x2, F.fin y2⟩).max_y =
      truncQ (min (max (max y0 y1) y2) ((height : ℚ) - 1) + 1 / 2) := by
  rw [find_bounding_box_fin]
  exact ⟨rfl, rfl, rfl, rfl⟩

/-! Claims C2, C3, C6: culling. -/

/-- The two-sided comparison of the code equals the spec's absolute-value
comparison, for every float value including the specials. -/
theorem F.two_sided_abs (x w : F) :
    (F.lt x (F.neg w) = true ∨ F.gt x w = true) ↔ F.gt (F.abs x) w = true := by
  cases x <;> cases w <;>
    simp [F.lt, F.gt, F.neg, F.abs, lt_abs, lt_neg] <;>
    tauto

/-- The code's `is_vertex_invisible` is the spec's frustum condition
`|x|>w ∨ |y|>w ∨ |z|>w`. -/
theorem is_vertex_invisible_iff (c : vec4_t) :
    is_vertex_invisible c = true ↔ clip_outside c := by
  have hx := F.two_sided_abs c.x c.w
  have hy := F.two_sided_abs c.y c.w
  have hz := F.two_sided_abs c.z c.w
  unfold is_vertex_invisible clip_outside
  simp only [Bool.or_eq_true]
  tauto

/-- The view-volume test on a finite clip vertex inside the volume. -/
theorem is_vertex_invisible_fin_false (x y z w : ℚ) (h1 : -w ≤ x)
    (h2 : x ≤ w) (h3 : -w ≤ y) (h4 : y ≤ w) (h5 : -w ≤ z) (h6 : z ≤ w) :
    is_vertex_invisible ⟨F.fin x, F.fin y, F.fin z, F.fin w⟩ = false := by
  simp only [is_vertex_invisible, F.neg_fin, F.lt_fin_fin, F.gt_fin_fin,
    Bool.or_eq_false_iff, decide_eq_false_iff_not]
  refine ⟨⟨⟨⟨⟨?_, ?_⟩, ?_⟩, ?_⟩, ?_⟩, ?_⟩ <;> linarith

/-- C2: if any of the (successively computed) vertex-shader outputs lies
outside the view volume in the spec's componentwise sense, the draw call
produces no fragments and leaves both buffers untouched. -/
theorem c2_frustum_rejection {V : Type} (ctx : context_t)
    (prog : program_t V)
    (h : clip_outside (clip0 prog) ∨ clip_outside (clip1 prog) ∨
      clip_outside (clip2 prog)) :
    (gfx_draw_triangle ctx prog).frags = [] ∧
    (∀ j, (gfx_draw_triangle ctx prog).colorbuffer j = ctx.colorbuffer j) ∧
    (∀ j, (gfx_draw_triangle ctx prog).depthbuffer j = ctx.depthbuffer j) := by
  by_cases h0 : is_vertex_invisible (clip0 prog) = true
  · unfold gfx_draw_triangle
    rw [if_pos h0]
    exact ⟨rfl, fun _ => rfl, fun _ => rfl⟩
  · by_cases h1 : is_vertex_invisible (clip1 prog) = true
    · unfold gfx_draw_triangle
      rw [if_neg h0, if_pos h1]
      exact ⟨rfl, fun _ => rfl, fun _ => rfl⟩
    · by_cases h2 : is_vertex_invisible (clip2 prog) = true
      · unfold gfx_draw_triangle
        rw [if_neg h0, if_neg h1, if_pos h2]
        exact ⟨rfl, fun _ => rfl, fun _ => rfl⟩
      · exfalso
        rcases h with h | h | h
        · exact h0 ((is_vertex_invisible_iff _).mpr h)
        · exact h1 ((is_vertex_invisible_iff _).mpr h)
        · exact h2 ((is_vertex_invisible_iff _).mpr h)

/-- Witness for C2 at a concrete program whose vertex 0 has `x = 2 > w = 1`. -/
theorem c2_frustum_rejection_witness :
    clip_outside (clip0 progInvis) ∧
    ((gfx_draw_triangle ctx2 progInvis).frags = [] ∧
      (∀ j, (gfx_draw_triangle ctx2 progInvis).colorbuffer j =
        ctx2.colorbuffer j) ∧
      (∀ j, (gfx_draw_triangle ctx2 progInvis).depthbuffer j =
        ctx2.depthbuffer j)) := by
  have hout : clip_outside (clip0 progInvis) := by
    have hc : clip0 progInvis = ⟨F.fin 2, F.fin 0, F.fin 0, F.fin 1⟩ := rfl
    rw [clip_outside, hc]
    left
    simp only [F.abs_fin, F.gt_fin_fin, decide_eq_true_eq]
    norm_num
  exact ⟨hout, c2_frustum_rejection ctx2 progInvis (Or.inl hout)⟩

/-- C3 counterexample: for a program whose vertex 0 fails the view-volume
test, the vertex shader is invoked only for `nth = 0` — not exactly once
for each of 0, 1, 2 — so the claim's "exactly three invocations per draw
call, regardless of culling outcome" is false. -/
theorem c3_counterexample :
    (gfx_draw_triangle ctx2 progInvis).vs_trace = [0] ∧
      (gfx_draw_triangle ctx2 progInvis).vs_trace ≠ [0, 1, 2] := by
  have h0 : is_vertex_invisible (clip0 progInvis) = true := by
    have hc : clip0 progInvis = ⟨F.fin 2, F.fin 0, F.fin 0, F.fin 1⟩ := rfl
    rw [is_vertex_invisible_iff, clip_outside, hc]
    left
    simp only [F.abs_fin, F.gt_fin_fin, decide_eq_true_eq]
    norm_num
  unfold gfx_draw_triangle
  rw [if_pos h0]
  exact ⟨rfl, by decide⟩

/-- C3 amended: the vertex shader is invoked once per vertex in the order
0, 1, 2 as long as outputs pass the view-volume test: a draw call whose
three outputs all pass (in particular every draw that is merely
back-face culled) performs exactly the three invocations 0, 1, 2, and in
general the invocation trace is `[0]`, `[0, 1]` or `[0, 1, 2]`, cut
short at the first invisible vertex. -/
theorem c3_vertex_calls_amended {V : Type} (ctx : context_t)
    (prog : program_t V) :
    ((is_vertex_invisible (clip0 prog) = false ∧
        is_vertex_invisible (clip1 prog) = false ∧
        is_vertex_invisible (clip2 prog) = false) →
      (gfx_draw_triangle ctx prog).vs_trace = [0, 1, 2]) ∧
    ((gfx_draw_triangle ctx prog).vs_trace = [0] ∨
      (gfx_draw_triangle ctx prog).vs_trace = [0, 1] ∨
      (gfx_draw_triangle ctx prog).vs_trace = [0, 1, 2]) := by
  constructor
  · rintro ⟨ha, hb, hc⟩
    unfold gfx_draw_triangle
    simp only [ha, hb, hc, Bool.false_eq_true, if_false]
    split_ifs <;> rfl
  · unfold gfx_draw_triangle
    split_ifs <;> simp

/-- Witness for the amended C3 theorem: a fully visible triangle gets all
three vertex-shader invocations. -/
theorem c3_vertex_calls_amended_witness :
    (gfx_draw_triangle ctx2 progA).vs_trace = [0, 1, 2] := by
  refine (c3_vertex_calls_amended ctx2 progA).1 ⟨?_, ?_, ?_⟩
  · have hc : clip0 progA = ⟨F.fin (-1), F.fin (-1), F.fin 0, F.fin 1⟩ := rfl
    rw [hc]
    exact is_vertex_invisible_fin_false _ _ _ _ (by norm_num) (by norm_num)
      (by norm_num) (by norm_num) (by norm_num) (by norm_num)
  · have hc : clip1 progA = ⟨F.fin 1, F.fin (-1), F.fin 0, F.fin 1⟩ := rfl
    rw [hc]
    exact is_vertex_invisible_fin_false _ _ _ _ (by norm_num) (by norm_num)
      (by norm_num) (by norm_num) (by norm_num) (by norm_num)
  · have hc : clip2 progA = ⟨F.fin (-1), F.fin 1, F.fin 0, F.fin 1⟩ := rfl
    rw [hc]
    exact is_vertex_invisible_fin_false _ _ _ _ (by norm_num) (by norm_num)
      (by norm_num) (by norm_num) (by norm_num) (by norm_num)

/-- C6: a triangle whose NDC vertices give a negative z component of
`(ndc1 - ndc0) × (ndc2 - ndc0)` is discarded before rasterization: no
fragments, and neither buffer is modified. -/
theorem c6_backface_reject {V : Type} (ctx : context_t) (prog : program_t V)
    (h : F.lt (vec3_cross
        (vec3_sub (vec3_from_vec4 (ndc1 prog)) (vec3_from_vec4 (ndc0 prog)))
        (vec3_sub (vec3_from_vec4 (ndc2 prog))
          (vec3_from_vec4 (ndc0 prog)))).z (F.fin 0) = true) :
    (gfx_draw_triangle ctx prog).frags = [] ∧
    (∀ j, (gfx_draw_triangle ctx prog).colorbuffer j = ctx.colorbuffer j) ∧
    (∀ j, (gfx_draw_triangle ctx prog).depthbuffer j = ctx.depthbuffer j) := by
  have hb : is_back_facing (ndc0 prog) (ndc1 prog) (ndc2 prog) = true := h
  unfold gfx_draw_triangle
  split_ifs with h0 h1 h2 h3 <;>
    first
      | exact ⟨rfl, fun _ => rfl, fun _ => rfl⟩
      | exact absurd hb (by simp_all)

/-- Witness for C6 at a concrete clockwise triangle. -/
theorem c6_backface_reject_witness :
    (gfx_draw_triangle ctx2 progCW).frags = [] ∧
    (∀ j, (gfx_draw_triangle ctx2 progCW).colorbuffer j =
      ctx2.colorbuffer j) ∧
    (∀ j, (gfx_draw_triangle ctx2 progCW).depthbuffer j =
      ctx2.depthbuffer j) := by
  refine c6_backface_reject ctx2 progCW ?_
  have h0 : clip0 progCW = ⟨F.fin (-1), F.fin (-1), F.fin 0, F.fin 1⟩ := rfl
  have h1 : clip1 progCW = ⟨F.fin (-1), F.fin 1, F.fin 0, F.fin 1⟩ := rfl
  have h2 : clip2 progCW = ⟨F.fin 1, F.fin (-1), F.fin 0, F.fin 1⟩ := rfl
  rw [ndc0, ndc1, ndc2, h0, h1, h2]
  norm_num [vec4_scale, vec3_from_vec4, vec3_sub, vec3_cross,
    F.div_fin_fin]

/-! Rasterization loop machinery. -/

section RasterLoop

variable {V : Type} (width : ℤ) (prog : program_t V) (s0 s1 s2 : vec4_t)
  (p0 p1 p2 : vec2_t)

/-- The loop body in guarded form: either the full fragment-stage update
or the identity, controlled by `shadeCond`. -/
theorem pixel_step_eq (st : RState V) (xy : ℤ × ℤ) :
    pixel_step width prog s0 s1 s2 p0 p1 p2 st xy =
      if shadeCond width s0 s1 s2 p0 p1 p2 st.depthbuffer xy then
        { colorbuffer := write_fragment_color width st.colorbuffer
            (prog.fragment_shader (prog.interp_varyings st.varyings
              (sampleWeights p0 p1 p2 xy))) xy.1 xy.2
          depthbuffer := fun j => if j = depthIndex width xy then
              calculate_depth s0 s1 s2 (sampleWeights p0 p1 p2 xy)
            else st.depthbuffer j
          varyings := prog.interp_varyings st.varyings
            (sampleWeights p0 p1 p2 xy)
          frags := st.frags ++ [xy] }
      else st := by
  unfold pixel_step shadeCond sampleWeights
  by_cases hin : weights_inside (calculate_weights p0 p1 p2
      ⟨F.fin (xy.1 : ℚ), F.fin (xy.2 : ℚ)⟩) = true
  · by_cases hgt : F.gt (st.depthbuffer (depthIndex width xy))
        (calculate_depth s0 s1 s2 (calculate_weights p0 p1 p2
          ⟨F.fin (xy.1 : ℚ), F.fin (xy.2 : ℚ)⟩)) = true
    · simp [hin, hgt]
    · simp [hin, Bool.eq_false_iff.mpr hgt]
  · simp [Bool.eq_false_iff.mpr hin]

/-- The loop body writes the depth buffer only at the pixel's own index. -/
theorem pixel_step_depth_frame (st : RState V) (xy : ℤ × ℤ) (j : ℤ)
    (h : j ≠ depthIndex width xy) :
    (pixel_step width prog s0 s1 s2 p0 p1 p2 st xy).depthbuffer j =
      st.depthbuffer j := by
  rw [pixel_step_eq]
  split_ifs <;> simp [h]

/-- The loop body writes the color buffer only at the pixel's own three
byte indices. -/
theorem pixel_step_color_frame (st : RState V) (xy : ℤ × ℤ) (j : ℤ)
    (h1 : j ≠ colorBase width xy) (h2 : j ≠ colorBase width xy + 1)
    (h3 : j ≠ colorBase width xy + 2) :
    (pixel_step width prog s0 s1 s2 p0 p1 p2 st xy).colorbuffer j =
      st.colorbuffer j := by
  rw [pixel_step_eq]
  unfold colorBase at h1 h2 h3
  split_ifs <;> simp [write_fragment_color, h1, h2, h3]

/-- The loop body appends the pixel to the fragment trace exactly when
the guard holds. -/
theorem pixel_step_frags (st : RState V) (xy : ℤ × ℤ) :
    (pixel_step width prog s0 s1 s2 p0 p1 p2 st xy).frags =
      if shadeCond width s0 s1 s2 p0 p1 p2 st.depthbuffer xy then
        st.frags ++ [xy]
      else st.frags := by
  rw [pixel_step_eq]
  split_ifs <;> rfl

/-- Distinct in-bounds pixels have distinct depth-buffer indices. -/
theorem depthIndex_inj {a b : ℤ × ℤ} (ha : inBoundsPix width a)
    (hb : inBoundsPix width b)
    (h : depthIndex width a = depthIndex width b) : a = b := by
  obtain ⟨ha1, ha2, _⟩ := ha
  obtain ⟨hb1, hb2, _⟩ := hb
  unfold depthIndex at h
  have hw : 0 < width := lt_of_le_of_lt ha1 ha2
  have h1 : a.1 = b.1 := by
    have e1 : (a.1 + a.2 * width) % width = a.1 := by
      rw [Int.add_mul_emod_self, Int.emod_eq_of_lt ha1 ha2]
    have e2 : (b.1 + b.2 * width) % width = b.1 := by
      rw [Int.add_mul_emod_self, Int.emod_eq_of_lt hb1 hb2]
    rw [← e1, ← e2]
    congr 1
    linarith
  have h2 : a.2 = b.2 := by
    have : a.2 * width = b.2 * width := by linarith
    exact mul_right_cancel₀ (ne_of_gt hw) this
  exact Prod.ext h1 h2

/-- The color-buffer base is three times the depth index. -/
theorem colorBase_eq (xy : ℤ × ℤ) :
    colorBase width xy = 3 * depthIndex width xy := by
  unfold colorBase depthIndex
  ring

/-- Byte ranges of distinct in-bounds pixels are disjoint. -/
theorem colorBase_disjoint {a b : ℤ × ℤ} (ha : inBoundsPix width a)
    (hb : inBoundsPix width b) (hne : a ≠ b) {c d : ℤ}
    (hc : c = 0 ∨ c = 1 ∨ c = 2) (hd : d = 0 ∨ d = 1 ∨ d = 2) :
    colorBase width a + c ≠ colorBase width b + d := by
  intro h
  apply hne
  apply depthIndex_inj width ha hb
  rw [colorBase_eq, colorBase_eq] at h
  rcases hc with rfl | rfl | rfl <;> rcases hd with rfl | rfl | rfl <;> omega

/-- Folding the loop body over pixels that do not own depth index `j`
leaves the depth buffer unchanged at `j`. -/
theorem foldl_depth_frame (L : List (ℤ × ℤ)) (st : RState V) (j : ℤ)
    (h : ∀ q ∈ L, j ≠ depthIndex width q) :
    ((L.foldl (pixel_step width prog s0 s1 s2 p0 p1 p2) st).depthbuffer j) =
      st.depthbuffer j := by
  induction L generalizing st with
  | nil => rfl
  | cons p L ih =>
      rw [List.foldl_cons, ih _ (fun q hq => h q (List.mem_cons_of_mem p hq))]
      exact pixel_step_depth_frame width prog s0 s1 s2 p0 p1 p2 st p j
        (h p (List.mem_cons_self p L))

/-- Folding the loop body over pixels whose byte ranges avoid `j` leaves
the color buffer unchanged at `j`. -/
theorem foldl_color_frame (L : List (ℤ × ℤ)) (st : RState V) (j : ℤ)
    (h : ∀ q ∈ L, j ≠ colorBase width q ∧ j ≠ colorBase width q + 1 ∧
      j ≠ colorBase width q + 2) :
    ((L.foldl (pixel_step width prog s0 s1 s2 p0 p1 p2) st).colorbuffer j) =
      st.colorbuffer j := by
  induction L generalizing st with
  | nil => rfl
  | cons p L ih =>
      rw [List.foldl_cons, ih _ (fun q hq => h q (List.mem_cons_of_mem p hq))]
      obtain ⟨h1, h2, h3⟩ := h p (List.mem_cons_self p L)
      exact pixel_step_color_frame width prog s0 s1 s2 p0 p1 p2 st p j h1 h2 h3

/-- A pixel never traversed is in the final fragment trace exactly when
it already was in the initial one. -/
theorem foldl_frags_not_mem (L : List (ℤ × ℤ)) (st : RState V)
    (q : ℤ × ℤ) (hq : q ∉ L) :
    (q ∈ (L.foldl (pixel_step width prog s0 s1 s2 p0 p1 p2) st).frags ↔
      q ∈ st.frags) := by
  induction L generalizing st with
  | nil => exact Iff.rfl
  | cons p L ih =>
      rw [List.foldl_cons,
        ih _ (fun hmem => hq (List.mem_cons_of_mem p hmem)),
        pixel_step_frags]
      split_ifs
      · simp only [List.mem_append, List.mem_singleton]
        have : q ≠ p := fun h => hq (h ▸ List.mem_cons_self p L)
        tauto
      · exact Iff.rfl

/-- The shading guard of a pixel is unaffected by the processing of a
different in-bounds pixel (it reads the depth buffer only at the pixel's
own index). -/
theorem shadeCond_step_eq (st : RState V) (p r : ℤ × ℤ)
    (hp : inBoundsPix width p) (hr : inBoundsPix width r) (hne : r ≠ p) :
    shadeCond width s0 s1 s2 p0 p1 p2
        ((pixel_step width prog s0 s1 s2 p0 p1 p2 st p).depthbuffer) r =
      shadeCond width s0 s1 s2 p0 p1 p2 st.depthbuffer r := by
  unfold shadeCond
  rw [pixel_step_depth_frame width prog s0 s1 s2 p0 p1 p2 st p
    (depthIndex width r)
    (fun h => hne (depthIndex_inj width hr hp h))]

/-- Value of `write_fragment_color` at the three bytes of its own pixel. -/
theorem write_fragment_color_at (cb : ℤ → ℕ) (col : vec4_t) (x y : ℤ) :
    (write_fragment_color width cb col x y) (y * width * 3 + x * 3) =
      castUChar (F.mul (clamp_float col.x (F.fin 0) (F.fin 1)) (F.fin 255)) ∧
    (write_fragment_color width cb col x y) (y * width * 3 + x * 3 + 1) =
      castUChar (F.mul (clamp_float col.y (F.fin 0) (F.fin 1)) (F.fin 255)) ∧
    (write_fragment_color width cb col x y) (y * width * 3 + x * 3 + 2) =
      castUChar (F.mul (clamp_float col.z (F.fin 0) (F.fin 1)) (F.fin 255)) := by
  unfold write_fragment_color
  refine ⟨?_, ?_, ?_⟩
  · rw [if_pos rfl]
  · rw [if_neg (by omega), if_pos rfl]
  · rw [if_neg (by omega), if_neg (by omega), if_pos rfl]

/-- Fragment-trace characterization of the traversal: an in-bounds pixel
of a duplicate-free pixel list ends up in the trace iff it was already
there or its shading guard held against the initial depth buffer. -/
theorem foldl_frags_mem (L : List (ℤ × ℤ)) :
    ∀ (st : RState V), L.Nodup → (∀ r ∈ L, inBoundsPix width r) →
      ∀ q ∈ L,
        (q ∈ (L.foldl (pixel_step width prog s0 s1 s2 p0 p1 p2) st).frags ↔
          q ∈ st.frags ∨
            shadeCond width s0 s1 s2 p0 p1 p2 st.depthbuffer q = true) := by
  induction L with
  | nil =>
      intro st _ _ q hq
      simp at hq
  | cons p L ih =>
      intro st hnd hbnd q hq
      obtain ⟨hpL, hnd'⟩ := List.nodup_cons.mp hnd
      have hbp := hbnd p (List.mem_cons_self p L)
      have hbnd' : ∀ r ∈ L, inBoundsPix width r :=
        fun r hr => hbnd r (List.mem_cons_of_mem p hr)
      rw [List.foldl_cons]
      rcases List.mem_cons.mp hq with rfl | hqL
      · rw [foldl_frags_not_mem width prog s0 s1 s2 p0 p1 p2 L _ q hpL,
          pixel_step_frags]
        split_ifs with hc
        · simp [hc]
        · simp [hc]
      · have hne : q ≠ p := fun h => hpL (h ▸ hqL)
        rw [ih _ hnd' hbnd' q hqL,
          shadeCond_step_eq width prog s0 s1 s2 p0 p1 p2 st p q hbp
            (hbnd' q hqL) hne,
          pixel_step_frags]
        split_ifs
        · simp only [List.mem_append, List.mem_singleton]
          tauto
        · exact Iff.rfl

/-- Depth-buffer characterization of the traversal at an in-bounds pixel
of a duplicate-free pixel list: the stored depth becomes the interpolated
depth when the guard held against the initial depth buffer, and is
untouched otherwise. -/
theorem foldl_depth_at (L : List (ℤ × ℤ)) :
    ∀ (st : RState V), L.Nodup → (∀ r ∈ L, inBoundsPix width r) →
      ∀ q ∈ L,
        ((L.foldl (pixel_step width prog s0 s1 s2 p0 p1 p2) st).depthbuffer
            (depthIndex width q)) =
          (if shadeCond width s0 s1 s2 p0 p1 p2 st.depthbuffer q then
            calculate_depth s0 s1 s2 (sampleWeights p0 p1 p2 q)
          else st.depthbuffer (depthIndex width q)) := by
  induction L with
  | nil =>
      intro st _ _ q hq
      simp at hq
  | cons p L ih =>
      intro st hnd hbnd q hq
      obtain ⟨hpL, hnd'⟩ := List.nodup_cons.mp hnd
      have hbp := hbnd p (List.mem_cons_self p L)
      have hbnd' : ∀ r ∈ L, inBoundsPix width r :=
        fun r hr => hbnd r (List.mem_cons_of_mem p hr)
      rw [List.foldl_cons]
      rcases List.mem_cons.mp hq with rfl | hqL
      · rw [foldl_depth_frame width prog s0 s1 s2 p0 p1 p2 L _
            (depthIndex width q)
            (fun r hr h => hpL (by
              rw [depthIndex_inj width hbp (hbnd' r hr) h]
              exact hr))]
        rw [pixel_step_eq]
        split_ifs with hc
        · simp
        · rfl
      · have hne : q ≠ p := fun h => hpL (h ▸ hqL)
        rw [ih _ hnd' hbnd' q hqL,
          shadeCond_step_eq width prog s0 s1 s2 p0 p1 p2 st p q hbp
            (hbnd' q hqL) hne,
          pixel_step_depth_frame width prog s0 s1 s2 p0 p1 p2 st p
            (depthIndex width q)
            (fun h => hne (depthIndex_inj width (hbnd' q hqL) hbp h))]

/-- Color-buffer characterization of the traversal at an in-bounds pixel
of a duplicate-free pixel list: the pixel's three bytes are untouched
when its guard fails, and receive the clamped scaled fragment color
(for the varyings state at the time of the visit) when it holds. -/
theorem foldl_color_at (L : List (ℤ × ℤ)) :
    ∀ (st : RState V), L.Nodup → (∀ r ∈ L, inBoundsPix width r) →
      ∀ q ∈ L,
        (shadeCond width s0 s1 s2 p0 p1 p2 st.depthbuffer q = false →
          ∀ c, c = 0 ∨ c = 1 ∨ c = 2 →
            ((L.foldl (pixel_step width prog s0 s1 s2 p0 p1 p2)
                st).colorbuffer (colorBase width q + c)) =
              st.colorbuffer (colorBase width q + c)) ∧
        (shadeCond width s0 s1 s2 p0 p1 p2 st.depthbuffer q = true →
          ∃ v : V,
            ((L.foldl (pixel_step width prog s0 s1 s2 p0 p1 p2)
                st).colorbuffer (colorBase width q)) =
              castUChar (F.mul (clamp_float (prog.fragment_shader
                (prog.interp_varyings v (sampleWeights p0 p1 p2 q))).x
                (F.fin 0) (F.fin 1)) (F.fin 255)) ∧
            ((L.foldl (pixel_step width prog s0 s1 s2 p0 p1 p2)
                st).colorbuffer (colorBase width q + 1)) =
              castUChar (F.mul (clamp_float (prog.fragment_shader
                (prog.interp_varyings v (sampleWeights p0 p1 p2 q))).y
                (F.fin 0) (F.fin 1)) (F.fin 255)) ∧
            ((L.foldl (pixel_step width prog s0 s1 s2 p0 p1 p2)
                st).colorbuffer (colorBase width q + 2)) =
              castUChar (F.mul (clamp_float (prog.fragment_shader
                (prog.interp_varyings v (sampleWeights p0 p1 p2 q))).z
                (F.fin 0) (F.fin 1)) (F.fin 255))) := by
  induction L with
  | nil =>
      intro st _ _ q hq
      simp at hq
  | cons p L ih =>
      intro st hnd hbnd q hq
      obtain ⟨hpL, hnd'⟩ := List.nodup_cons.mp hnd
      have hbp := hbnd p (List.mem_cons_self p L)
      have hbnd' : ∀ r ∈ L, inBoundsPix width r :=
        fun r hr => hbnd r (List.mem_cons_of_mem p hr)
      rw [List.foldl_cons]
      rcases List.mem_cons.mp hq with rfl | hqL
      · have hframe : ∀ c, c = 0 ∨ c = 1 ∨ c = 2 →
            ((L.foldl (pixel_step width prog s0 s1 s2 p0 p1 p2)
                (pixel_step width prog s0 s1 s2 p0 p1 p2 st q)).colorbuffer
              (colorBase width q + c)) =
            (pixel_step width prog s0 s1 s2 p0 p1 p2 st q).colorbuffer
              (colorBase width q + c) := by
          intro c hc
          refine foldl_color_frame width prog s0 s1 s2 p0 p1 p2 L _ _ ?_
          intro r hr
          have hner : q ≠ r := fun h => hpL (h ▸ hr)
          have hd0 : colorBase width q + c ≠ colorBase width r := by
            simpa using colorBase_disjoint width hbp (hbnd' r hr) hner hc
              (Or.inl rfl)
          exact ⟨hd0,
            colorBase_disjoint width hbp (hbnd' r hr) hner hc
              (Or.inr (Or.inl rfl)),
            colorBase_disjoint width hbp (hbnd' r hr) hner hc
              (Or.inr (Or.inr rfl))⟩
        constructor
        · intro hc c hcc
          rw [hframe c hcc, pixel_step_eq, if_neg (by rw [hc]; exact
            Bool.false_ne_true)]
        · intro hc
          refine ⟨st.varyings, ?_, ?_, ?_⟩
          · have h0 := hframe 0 (Or.inl rfl)
            rw [add_zero] at h0
            rw [h0, pixel_step_eq, if_pos hc]
            exact (write_fragment_color_at width st.colorbuffer _ q.1 q.2).1
          · rw [hframe 1 (Or.inr (Or.inl rfl)), pixel_step_eq, if_pos hc]
            exact (write_fragment_color_at width st.colorbuffer _ q.1 q.2).2.1
          · rw [hframe 2 (Or.inr (Or.inr rfl)), pixel_step_eq, if_pos hc]
            exact (write_fragment_color_at width st.colorbuffer _ q.1 q.2).2.2
      · have hne : q ≠ p := fun h => hpL (h ▸ hqL)
        have hcondeq := shadeCond_step_eq width prog s0 s1 s2 p0 p1 p2 st p q
          hbp (hbnd' q hqL) hne
        have hcolor : ∀ c, c = 0 ∨ c = 1 ∨ c = 2 →
            (pixel_step width prog s0 s1 s2 p0 p1 p2 st p).colorbuffer
              (colorBase width q + c) =
            st.colorbuffer (colorBase width q + c) := by
          intro c hc
          have hd0 : colorBase width q + c ≠ colorBase width p := by
            simpa using colorBase_disjoint width (hbnd' q hqL) hbp hne hc
              (Or.inl rfl)
          exact pixel_step_color_frame width prog s0 s1 s2 p0 p1 p2 st p _
            hd0
            (colorBase_disjoint width (hbnd' q hqL) hbp hne hc
              (Or.inr (Or.inl rfl)))
            (colorBase_disjoint width (hbnd' q hqL) hbp hne hc
              (Or.inr (Or.inr rfl)))
        obtain ⟨ihf, iht⟩ := ih _ hnd' hbnd' q hqL
        constructor
        · intro hc c hcc
          rw [ihf (by rw [hcondeq]; exact hc) c hcc, hcolor c hcc]
        · intro hc
          obtain ⟨v, h0, h1, h2⟩ := iht (by rw [hcondeq]; exact hc)
          exact ⟨v, h0, h1, h2⟩

/-- A traversal all of whose sample points fail the interior test leaves
the state untouched. -/
theorem foldl_id_of_inside_false (L : List (ℤ × ℤ)) (st : RState V)
    (h : ∀ xy, weights_inside (sampleWeights p0 p1 p2 xy) = false) :
    L.foldl (pixel_step width prog s0 s1 s2 p0 p1 p2) st = st := by
  induction L generalizing st with
  | nil => rfl
  | cons p L ih =>
      rw [List.foldl_cons, pixel_step_eq, if_neg]
      · exact ih st
      · rw [shadeCond, h p]
        simp

end RasterLoop

/-! Traversal-range lemmas. -/

/-- Membership in the closed integer range. -/
theorem intRange_mem (lo hi z : ℤ) : z ∈ intRange lo hi ↔ lo ≤ z ∧ z ≤ hi := by
  constructor
  · intro hz
    obtain ⟨n, hn, rfl⟩ := List.mem_map.mp hz
    have hn2 := List.mem_range.mp hn
    omega
  · intro ⟨h1, h2⟩
    exact List.mem_map.mpr ⟨(z - lo).toNat,
      List.mem_range.mpr (by omega), by omega⟩

/-- The closed integer range has no duplicates. -/
theorem intRange_nodup (lo hi : ℤ) : (intRange lo hi).Nodup := by
  unfold intRange
  refine List.Nodup.map ?_ (List.nodup_range _)
  intro a b h
  have h2 : lo + (a : ℤ) = lo + (b : ℤ) := h
  omega

/-- Membership in the traversal order of a bounding box. -/
theorem pixelList_mem (box : box_t) (xy : ℤ × ℤ) :
    xy ∈ pixelList box ↔ box.min_x ≤ xy.1 ∧ xy.1 ≤ box.max_x ∧
      box.min_y ≤ xy.2 ∧ xy.2 ≤ box.max_y := by
  simp only [pixelList, List.mem_flatMap, List.mem_map, intRange_mem]
  constructor
  · rintro ⟨x, hx, y, hy, rfl⟩
    exact ⟨hx.1, hx.2, hy.1, hy.2⟩
  · intro ⟨h1, h2, h3, h4⟩
    exact ⟨xy.1, ⟨h1, h2⟩, xy.2, ⟨h3, h4⟩, rfl⟩

/-- The traversal order has no duplicate pixels. -/
theorem pixelList_nodup (box : box_t) : (pixelList box).Nodup := by
  unfold pixelList
  rw [List.nodup_flatMap]
  constructor
  · intro x _
    refine (intRange_nodup _ _).map ?_
    intro a b h
    exact congrArg Prod.snd h
  · refine List.Pairwise.imp ?_ (intRange_nodup box.min_x box.max_x)
    intro a b hab z hza hzb
    simp only [List.mem_map] at hza hzb
    obtain ⟨y1, _, rfl⟩ := hza
    obtain ⟨y2, _, hz⟩ := hzb
    exact hab (congrArg Prod.fst hz).symm

/-- A float is finite exactly when it is some rational. -/
theorem F.isFinite_iff {v : F} : v.isFinite = true ↔ ∃ q, v = F.fin q := by
  cases v <;> simp [F.isFinite]

/-- Every pixel traversed for a triangle with finite screen points on a
positive-width screen is in bounds. -/
theorem triBox_bounds {V : Type} (ctx : context_t) (prog : program_t V)
    (hW : 1 ≤ ctx.width) (hfin : screenFinite ctx prog) :
    ∀ xy ∈ pixelList (triBox ctx prog), inBoundsPix ctx.width xy := by
  obtain ⟨hx0, hy0, hx1, hy1, hx2, hy2⟩ := hfin
  obtain ⟨a0, ha0⟩ := F.isFinite_iff.mp hx0
  obtain ⟨b0, hb0⟩ := F.isFinite_iff.mp hy0
  obtain ⟨a1, ha1⟩ := F.isFinite_iff.mp hx1
  obtain ⟨b1, hb1⟩ := F.isFinite_iff.mp hy1
  obtain ⟨a2, ha2⟩ := F.isFinite_iff.mp hx2
  obtain ⟨b2, hb2⟩ := F.isFinite_iff.mp hy2
  have e0 : screenPt0 ctx prog = ⟨F.fin a0, F.fin b0⟩ := by rw [← ha0, ← hb0]
  have e1 : screenPt1 ctx prog = ⟨F.fin a1, F.fin b1⟩ := by rw [← ha1, ← hb1]
  have e2 : screenPt2 ctx prog = ⟨F.fin a2, F.fin b2⟩ := by rw [← ha2, ← hb2]
  intro xy hxy
  rw [pixelList_mem] at hxy
  rw [show triBox ctx prog = find_bounding_box ctx.width ctx.height
      ⟨F.fin a0, F.fin b0⟩ ⟨F.fin a1, F.fin b1⟩ ⟨F.fin a2, F.fin b2⟩ from by
        rw [triBox, e0, e1, e2],
    find_bounding_box_fin] at hxy
  dsimp only at hxy
  obtain ⟨hxmin, hxmax, hymin, _⟩ := hxy
  refine ⟨?_, ?_, ?_⟩
  · have h0q : ((0 : ℤ) : ℚ) ≤ max (min (min a0 a1) a2) 0 := by
      push_cast
      exact le_max_right _ _
    exact le_trans (le_truncQ h0q) hxmin
  · have hle : truncQ (min (max (max a0 a1) a2) ((ctx.width : ℚ) - 1) + 1 / 2)
        ≤ ctx.width - 1 := by
      apply truncQ_le_of_lt_add_one
      · have hm : min (max (max a0 a1) a2) ((ctx.width : ℚ) - 1) ≤
            (ctx.width : ℚ) - 1 := min_le_right _ _
        push_cast
        linarith
      · omega
    omega
  · have h0q : ((0 : ℤ) : ℚ) ≤ max (min (min b0 b1) b2) 0 := by
      push_cast
      exact le_max_right _ _
    exact le_trans (le_truncQ h0q) hymin

/-- Unfolding of `gfx_draw_triangle` for a draw call that survives both
culling stages: the result is the traversal fold from the context's
buffers. -/
theorem gfx_draw_triangle_raster {V : Type} (ctx : context_t)
    (prog : program_t V)
    (h0 : is_vertex_invisible (clip0 prog) = false)
    (h1 : is_vertex_invisible (clip1 prog) = false)
    (h2 : is_vertex_invisible (clip2 prog) = false)
    (hbf : is_back_facing (ndc0 prog) (ndc1 prog) (ndc2 prog) = false) :
    gfx_draw_triangle ctx prog =
      { colorbuffer := ((pixelList (triBox ctx prog)).foldl
          (pixel_step ctx.width prog (screen0 ctx prog) (screen1 ctx prog)
            (screen2 ctx prog) (screenPt0 ctx prog) (screenPt1 ctx prog)
            (screenPt2 ctx prog))
          ⟨ctx.colorbuffer, ctx.depthbuffer, vary3 prog, []⟩).colorbuffer
        depthbuffer := ((pixelList (triBox ctx prog)).foldl
          (pixel_step ctx.width prog (screen0 ctx prog) (screen1 ctx prog)
            (screen2 ctx prog) (screenPt0 ctx prog) (screenPt1 ctx prog)
            (screenPt2 ctx prog))
          ⟨ctx.colorbuffer, ctx.depthbuffer, vary3 prog, []⟩).depthbuffer
        varyings := ((pixelList (triBox ctx prog)).foldl
          (pixel_step ctx.width prog (screen0 ctx prog) (screen1 ctx prog)
            (screen2 ctx prog) (screenPt0 ctx prog) (screenPt1 ctx prog)
            (screenPt2 ctx prog))
          ⟨ctx.colorbuffer, ctx.depthbuffer, vary3 prog, []⟩).varyings
        vs_trace := [0, 1, 2]
        frags := ((pixelList (triBox ctx prog)).foldl
          (pixel_step ctx.width prog (screen0 ctx prog) (screen1 ctx prog)
            (screen2 ctx prog) (screenPt0 ctx prog) (screenPt1 ctx prog)
            (screenPt2 ctx prog))
          ⟨ctx.colorbuffer, ctx.depthbuffer, vary3 prog, []⟩).frags } := by
  unfold gfx_draw_triangle
  rw [h0, h1, h2, hbf]
  rfl

/-! Claim C9: degenerate triangles. -/

/-- If both free weight components are non-finite (NaN or infinite), the
interior test rejects the sample point: the comparisons with NaN are
false, `-inf` fails the sign test, and two `+inf` weights drive the
first component to `-inf` or NaN. -/
theorem weights_inside_nonfinite {s t : F} (hs : s.isFinite = false)
    (ht : t.isFinite = false) :
    weights_inside ⟨F.sub (F.sub (F.fin 1) s) t, s, t⟩ = false := by
  cases s <;> cases t <;>
    simp_all [weights_inside, F.sub, F.add, F.neg, F.ge, F.le, F.isFinite]

/-- A zero barycentric denominator makes the interior test fail at every
sample point: both divisions return NaN or `±inf`. -/
theorem weights_inside_denom_zero (A B C P : vec2_t)
    (h : F.sub (F.mul (vec2_sub B A).x (vec2_sub C A).y)
      (F.mul (vec2_sub B A).y (vec2_sub C A).x) = F.fin 0) :
    weights_inside (calculate_weights A B C P) = false := by
  unfold calculate_weights
  simp only [h]
  exact weights_inside_nonfinite (F.div_fin_zero_not_finite _)
    (F.div_fin_zero_not_finite _)

/-- C9: a draw call whose screen triangle has a zero barycentric
denominator (collinear screen points) produces no fragments and leaves
every byte of the color buffer and every cell of the depth buffer
unchanged — the NaN/infinite weights fail the interior test at every
pixel, and no write touches any buffer location. -/
theorem c9_degenerate_no_fragments {V : Type} (ctx : context_t)
    (prog : program_t V) (h : denomAt ctx prog = F.fin 0) :
    (gfx_draw_triangle ctx prog).frags = [] ∧
    (∀ j, (gfx_draw_triangle ctx prog).colorbuffer j = ctx.colorbuffer j) ∧
    (∀ j, (gfx_draw_triangle ctx prog).depthbuffer j = ctx.depthbuffer j) := by
  have hinside : ∀ xy : ℤ × ℤ, weights_inside (sampleWeights
      (screenPt0 ctx prog) (screenPt1 ctx prog) (screenPt2 ctx prog) xy) =
      false := by
    intro xy
    exact weights_inside_denom_zero _ _ _ _ h
  by_cases h0 : is_vertex_invisible (clip0 prog) = true
  · unfold gfx_draw_triangle
    rw [if_pos h0]
    exact ⟨rfl, fun _ => rfl, fun _ => rfl⟩
  · by_cases h1 : is_vertex_invisible (clip1 prog) = true
    · unfold gfx_draw_triangle
      rw [if_neg h0, if_pos h1]
      exact ⟨rfl, fun _ => rfl, fun _ => rfl⟩
    · by_cases h2 : is_vertex_invisible (clip2 prog) = true
      · unfold gfx_draw_triangle
        rw [if_neg h0, if_neg h1, if_pos h2]
        exact ⟨rfl, fun _ => rfl, fun _ => rfl⟩
      · by_cases hbf : is_back_facing (ndc0 prog) (ndc1 prog) (ndc2 prog) =
            true
        · unfold gfx_draw_triangle
          rw [if_neg h0, if_neg h1, if_neg h2, if_pos hbf]
          exact ⟨rfl, fun _ => rfl, fun _ => rfl⟩
        · rw [gfx_draw_triangle_raster ctx prog (by simpa using h0)
            (by simpa using h1) (by simpa using h2) (by simpa using hbf)]
          rw [foldl_id_of_inside_false ctx.width prog (screen0 ctx prog)
            (screen1 ctx prog) (screen2 ctx prog) (screenPt0 ctx prog)
            (screenPt1 ctx prog) (screenPt2 ctx prog) _ _ hinside]
          exact ⟨rfl, fun _ => rfl, fun _ => rfl⟩

/-! Concrete screen-coordinate evaluations for the 2×2 context. -/

/-- The 2×2 viewport applied to a `w = 1` clip vertex. -/
theorem screen_viewport2 (x y z : ℚ) :
    mat4_mul_vec4 viewport2 (vec4_scale ⟨F.fin x, F.fin y, F.fin z, F.fin 1⟩
      (F.div (F.fin 1) (F.fin 1))) =
    ⟨F.fin (x + 1), F.fin (y + 1), F.fin (z / 2 + 1 / 2), F.fin 1⟩ := by
  rw [F.div_fin_fin 1 one_ne_zero]
  norm_num [viewport2, vec4_scale, mat4_mul_vec4, vec4_dot]
  ring

/-- Screen coordinates of vertex 0 of a constant program on `ctx2`. -/
theorem screen0_eval (x y z : ℚ) (c1 c2 col : vec4_t) :
    screen0 ctx2 (constProgram ⟨F.fin x, F.fin y, F.fin z, F.fin 1⟩ c1 c2
      col) = ⟨F.fin (x + 1), F.fin (y + 1), F.fin (z / 2 + 1 / 2), F.fin 1⟩ := by
  rw [screen0, ndc0]
  exact screen_viewport2 x y z

/-- Screen coordinates of vertex 1 of a constant program on `ctx2`. -/
theorem screen1_eval (c0 : vec4_t) (x y z : ℚ) (c2 col : vec4_t) :
    screen1 ctx2 (constProgram c0 ⟨F.fin x, F.fin y, F.fin z, F.fin 1⟩ c2
      col) = ⟨F.fin (x + 1), F.fin (y + 1), F.fin (z / 2 + 1 / 2), F.fin 1⟩ := by
  rw [screen1, ndc1]
  exact screen_viewport2 x y z

/-- Screen coordinates of vertex 2 of a constant program on `ctx2`. -/
theorem screen2_eval (c0 c1 : vec4_t) (x y z : ℚ) (col : vec4_t) :
    screen2 ctx2 (constProgram c0 c1 ⟨F.fin x, F.fin y, F.fin z, F.fin 1⟩
      col) = ⟨F.fin (x + 1), F.fin (y + 1), F.fin (z / 2 + 1 / 2), F.fin 1⟩ := by
  rw [screen2, ndc2]
  exact screen_viewport2 x y z

/-- Screen point of vertex 0 of a constant program on `ctx2`. -/
theorem screenPt0_eval (x y z : ℚ) (c1 c2 col : vec4_t) :
    screenPt0 ctx2 (constProgram ⟨F.fin x, F.fin y, F.fin z, F.fin 1⟩ c1 c2
      col) = ⟨F.fin (x + 1), F.fin (y + 1)⟩ := by
  rw [screenPt0, screen0_eval]

/-- Screen point of vertex 1 of a constant program on `ctx2`. -/
theorem screenPt1_eval (c0 : vec4_t) (x y z : ℚ) (c2 col : vec4_t) :
    screenPt1 ctx2 (constProgram c0 ⟨F.fin x, F.fin y, F.fin z, F.fin 1⟩ c2
      col) = ⟨F.fin (x + 1), F.fin (y + 1)⟩ := by
  rw [screenPt1, screen1_eval]

/-- Screen point of vertex 2 of a constant program on `ctx2`. -/
theorem screenPt2_eval (c0 c1 : vec4_t) (x y z : ℚ) (col : vec4_t) :
    screenPt2 ctx2 (constProgram c0 c1 ⟨F.fin x, F.fin y, F.fin z, F.fin 1⟩
      col) = ⟨F.fin (x + 1), F.fin (y + 1)⟩ := by
  rw [screenPt2, screen2_eval]

/-- Witness for C9 at a concrete program whose screen points
`(0,0), (1,1), (2,2)` are collinear. -/
theorem c9_degenerate_no_fragments_witness :
    (gfx_draw_triangle ctx2 progCol).frags = [] ∧
    (∀ j, (gfx_draw_triangle ctx2 progCol).colorbuffer j =
      ctx2.colorbuffer j) ∧
    (∀ j, (gfx_draw_triangle ctx2 progCol).depthbuffer j =
      ctx2.depthbuffer j) := by
  refine c9_degenerate_no_fragments ctx2 progCol ?_
  have e0 : screenPt0 ctx2 progCol = ⟨F.fin 0, F.fin 0⟩ := by
    rw [show progCol = constProgram ⟨F.fin (-1), F.fin (-1), F.fin 0, F.fin 1⟩
        ⟨F.fin 0, F.fin 0, F.fin 0, F.fin 1⟩ ⟨F.fin 1, F.fin 1, F.fin 0,
        F.fin 1⟩ ⟨F.fin 1, F.fin 1, F.fin 1, F.fin 1⟩ from rfl,
      screenPt0_eval]
    norm_num
  have e1 : screenPt1 ctx2 progCol = ⟨F.fin 1, F.fin 1⟩ := by
    rw [show progCol = constProgram ⟨F.fin (-1), F.fin (-1), F.fin 0, F.fin 1⟩
        ⟨F.fin 0, F.fin 0, F.fin 0, F.fin 1⟩ ⟨F.fin 1, F.fin 1, F.fin 0,
        F.fin 1⟩ ⟨F.fin 1, F.fin 1, F.fin 1, F.fin 1⟩ from rfl,
      screenPt1_eval]
    norm_num
  have e2 : screenPt2 ctx2 progCol = ⟨F.fin 2, F.fin 2⟩ := by
    rw [show progCol = constProgram ⟨F.fin (-1), F.fin (-1), F.fin 0, F.fin 1⟩
        ⟨F.fin 0, F.fin 0, F.fin 0, F.fin 1⟩ ⟨F.fin 1, F.fin 1, F.fin 0,
        F.fin 1⟩ ⟨F.fin 1, F.fin 1, F.fin 1, F.fin 1⟩ from rfl,
      screenPt2_eval]
    norm_num
  rw [denomAt, e0, e1, e2]
  norm_num [vec2_sub]

/-! Claim C10: write pairing and conditions. -/

/-- C10: for a draw call that reaches rasterization (with finite screen
points, on a positive-width buffer), at every in-bounds pixel `p`: the
fragment stage runs at `p` precisely when `p` is traversed, passes the
interior test, and its interpolated depth is strictly below the stored
depth; when it runs, the depth cell receives the interpolated depth and
the pixel's three color bytes receive the clamped scaled fragment color,
and when it does not, both buffers are untouched at that pixel — color
and depth writes are paired in the single shading branch. -/
theorem c10_write_pairing {V : Type} (ctx : context_t) (prog : program_t V)
    (hW : 1 ≤ ctx.width)
    (h0 : is_vertex_invisible (clip0 prog) = false)
    (h1 : is_vertex_invisible (clip1 prog) = false)
    (h2 : is_vertex_invisible (clip2 prog) = false)
    (hbf : is_back_facing (ndc0 prog) (ndc1 prog) (ndc2 prog) = false)
    (hfin : screenFinite ctx prog)
    (p : ℤ × ℤ) (hp : inBoundsPix ctx.width p) :
    (p ∈ (gfx_draw_triangle ctx prog).frags ↔
      p ∈ pixelList (triBox ctx prog) ∧ insideAt ctx prog p = true ∧
      F.lt (depthAt ctx prog p)
        (ctx.depthbuffer (depthIndex ctx.width p)) = true) ∧
    (p ∈ (gfx_draw_triangle ctx prog).frags →
      (gfx_draw_triangle ctx prog).depthbuffer (depthIndex ctx.width p) =
        depthAt ctx prog p ∧
      ∃ v : V,
        (gfx_draw_triangle ctx prog).colorbuffer (colorBase ctx.width p) =
          castUChar (F.mul (clamp_float (prog.fragment_shader
            (prog.interp_varyings v (weightsAt ctx prog p))).x (F.fin 0)
            (F.fin 1)) (F.fin 255)) ∧
        (gfx_draw_triangle ctx prog).colorbuffer (colorBase ctx.width p + 1) =
          castUChar (F.mul (clamp_float (prog.fragment_shader
            (prog.interp_varyings v (weightsAt ctx prog p))).y (F.fin 0)
            (F.fin 1)) (F.fin 255)) ∧
        (gfx_draw_triangle ctx prog).colorbuffer (colorBase ctx.width p + 2) =
          castUChar (F.mul (clamp_float (prog.fragment_shader
            (prog.interp_varyings v (weightsAt ctx prog p))).z (F.fin 0)
            (F.fin 1)) (F.fin 255))) ∧
    (p ∉ (gfx_draw_triangle ctx prog).frags →
      (∀ c, c = 0 ∨ c = 1 ∨ c = 2 →
        (gfx_draw_triangle ctx prog).colorbuffer (colorBase ctx.width p + c) =
          ctx.colorbuffer (colorBase ctx.width p + c)) ∧
      (gfx_draw_triangle ctx prog).depthbuffer (depthIndex ctx.width p) =
        ctx.depthbuffer (depthIndex ctx.width p)) := by
  have hbnd := triBox_bounds ctx prog hW hfin
  have hnd := pixelList_nodup (triBox ctx prog)
  set out := (pixelList (triBox ctx prog)).foldl
      (pixel_step ctx.width prog (screen0 ctx prog) (screen1 ctx prog)
        (screen2 ctx prog) (screenPt0 ctx prog) (screenPt1 ctx prog)
        (screenPt2 ctx prog))
      (⟨ctx.colorbuffer, ctx.depthbuffer, vary3 prog, []⟩ : RState V)
    with hout
  have hdraw : gfx_draw_triangle ctx prog =
      ⟨out.colorbuffer, out.depthbuffer, out.varyings, [0, 1, 2],
        out.frags⟩ := by
    rw [hout]
    exact gfx_draw_triangle_raster ctx prog h0 h1 h2 hbf
  rw [hdraw]
  dsimp only
  by_cases hmem : p ∈ pixelList (triBox ctx prog)
  · have hfr := foldl_frags_mem ctx.width prog (screen0 ctx prog)
      (screen1 ctx prog) (screen2 ctx prog) (screenPt0 ctx prog)
      (screenPt1 ctx prog) (screenPt2 ctx prog) (pixelList (triBox ctx prog))
      ⟨ctx.colorbuffer, ctx.depthbuffer, vary3 prog, []⟩ hnd hbnd p hmem
    have hdp := foldl_depth_at ctx.width prog (screen0 ctx prog)
      (screen1 ctx prog) (screen2 ctx prog) (screenPt0 ctx prog)
      (screenPt1 ctx prog) (screenPt2 ctx prog) (pixelList (triBox ctx prog))
      ⟨ctx.colorbuffer, ctx.depthbuffer, vary3 prog, []⟩ hnd hbnd p hmem
    have hco := foldl_color_at ctx.width prog (screen0 ctx prog)
      (screen1 ctx prog) (screen2 ctx prog) (screenPt0 ctx prog)
      (screenPt1 ctx prog) (screenPt2 ctx prog) (pixelList (triBox ctx prog))
      ⟨ctx.colorbuffer, ctx.depthbuffer, vary3 prog, []⟩ hnd hbnd p hmem
    rw [← hout] at hfr hdp hco
    have hcond : shadeCond ctx.width (screen0 ctx prog) (screen1 ctx prog)
        (screen2 ctx prog) (screenPt0 ctx prog) (screenPt1 ctx prog)
        (screenPt2 ctx prog)
        (RState.depthbuffer ⟨ctx.colorbuffer, ctx.depthbuffer, vary3 prog, []⟩)
        p =
        (insideAt ctx prog p &&
          F.lt (depthAt ctx prog p)
            (ctx.depthbuffer (depthIndex ctx.width p))) := rfl
    rw [hcond] at hfr hdp hco
    have hiff : p ∈ out.frags ↔
        insideAt ctx prog p = true ∧
        F.lt (depthAt ctx prog p)
          (ctx.depthbuffer (depthIndex ctx.width p)) = true := by
      rw [hfr]
      rw [Bool.and_eq_true]
      simp only [List.not_mem_nil, false_or]
    refine ⟨?_, ?_, ?_⟩
    · exact ⟨fun h => ⟨hmem, hiff.mp h⟩, fun h => hiff.mpr h.2⟩
    · intro hin
      obtain ⟨hi1, hi2⟩ := hiff.mp hin
      have hc : (insideAt ctx prog p &&
          F.lt (depthAt ctx prog p)
            (ctx.depthbuffer (depthIndex ctx.width p))) = true := by
        rw [hi1, hi2]
        rfl
      constructor
      · rw [hdp, if_pos hc]
        rfl
      · exact hco.2 hc
    · intro hnin
      have hc : (insideAt ctx prog p &&
          F.lt (depthAt ctx prog p)
            (ctx.depthbuffer (depthIndex ctx.width p))) = false := by
        rcases Bool.eq_false_or_eq_true (insideAt ctx prog p &&
            F.lt (depthAt ctx prog p)
              (ctx.depthbuffer (depthIndex ctx.width p))) with h | h
        · obtain ⟨ha, hb⟩ := (Bool.and_eq_true _ _).mp h
          exact absurd (hiff.mpr ⟨ha, hb⟩) hnin
        · exact h
      refine ⟨hco.1 hc, ?_⟩
      rw [hdp, if_neg]
      rw [hc]
      exact Bool.false_ne_true
  · have hfr := foldl_frags_not_mem ctx.width prog (screen0 ctx prog)
      (screen1 ctx prog) (screen2 ctx prog) (screenPt0 ctx prog)
      (screenPt1 ctx prog) (screenPt2 ctx prog) (pixelList (triBox ctx prog))
      ⟨ctx.colorbuffer, ctx.depthbuffer, vary3 prog, []⟩ p hmem
    rw [← hout] at hfr
    have hemp : p ∉ out.frags := by
      rw [hfr]
      exact List.not_mem_nil p
    refine ⟨?_, ?_, ?_⟩
    · exact ⟨fun h => absurd h hemp, fun h => absurd h.1 hmem⟩
    · intro h
      exact absurd h hemp
    · intro _
      constructor
      · intro c hc
        rw [hout]
        refine foldl_color_frame ctx.width prog (screen0 ctx prog)
          (screen1 ctx prog) (screen2 ctx prog) (screenPt0 ctx prog)
          (screenPt1 ctx prog) (screenPt2 ctx prog) _ _ _ ?_
        intro r hr
        have hner : p ≠ r := fun h => hmem (h ▸ hr)
        have hd0 : colorBase ctx.width p + c ≠ colorBase ctx.width r := by
          simpa using colorBase_disjoint ctx.width hp (hbnd r hr) hner hc
            (Or.inl rfl)
        exact ⟨hd0,
          colorBase_disjoint ctx.width hp (hbnd r hr) hner hc
            (Or.inr (Or.inl rfl)),
          colorBase_disjoint ctx.width hp (hbnd r hr) hner hc
            (Or.inr (Or.inr rfl))⟩
      · rw [hout]
        refine foldl_depth_frame ctx.width prog (screen0 ctx prog)
          (screen1 ctx prog) (screen2 ctx prog) (screenPt0 ctx prog)
          (screenPt1 ctx prog) (screenPt2 ctx prog) _ _ _ ?_
        intro r hr h
        exact hmem ((depthIndex_inj ctx.width hp (hbnd r hr) h) ▸ hr)

/-! Concrete evaluations for the `triProg` family on `ctx2`. -/

/-- All three vertices of a `triProg` pass the view-volume test when the
shared depth is within `[-1, 1]`. -/
theorem triProg_vis (z : ℚ) (hz1 : -1 ≤ z) (hz2 : z ≤ 1) (col : vec4_t) :
    is_vertex_invisible (clip0 (triProg z col)) = false ∧
    is_vertex_invisible (clip1 (triProg z col)) = false ∧
    is_vertex_invisible (clip2 (triProg z col)) = false := by
  refine ⟨?_, ?_, ?_⟩
  · rw [show clip0 (triProg z col) =
      ⟨F.fin (-1), F.fin (-1), F.fin z, F.fin 1⟩ from rfl]
    exact is_vertex_invisible_fin_false _ _ _ _ (by norm_num) (by norm_num)
      (by norm_num) (by norm_num) (by linarith) (by linarith)
  · rw [show clip1 (triProg z col) =
      ⟨F.fin 1, F.fin (-1), F.fin z, F.fin 1⟩ from rfl]
    exact is_vertex_invisible_fin_false _ _ _ _ (by norm_num) (by norm_num)
      (by norm_num) (by norm_num) (by linarith) (by linarith)
  · rw [show clip2 (triProg z col) =
      ⟨F.fin (-1), F.fin 1, F.fin z, F.fin 1⟩ from rfl]
    exact is_vertex_invisible_fin_false _ _ _ _ (by norm_num) (by norm_num)
      (by norm_num) (by norm_num) (by linarith) (by linarith)

/-- The screen points of a `triProg` on `ctx2`. -/
theorem triProg_pts (z : ℚ) (col : vec4_t) :
    screenPt0 ctx2 (triProg z col) = ⟨F.fin 0, F.fin 0⟩ ∧
    screenPt1 ctx2 (triProg z col) = ⟨F.fin 2, F.fin 0⟩ ∧
    screenPt2 ctx2 (triProg z col) = ⟨F.fin 0, F.fin 2⟩ := by
  refine ⟨?_, ?_, ?_⟩
  · rw [triProg, screenPt0_eval]
    norm_num
  · rw [triProg, screenPt1_eval]
    norm_num
  · rw [triProg, screenPt2_eval]
    norm_num

/-- The screen coordinates of a `triProg` on `ctx2`. -/
theorem triProg_screens (z : ℚ) (col : vec4_t) :
    screen0 ctx2 (triProg z col) =
      ⟨F.fin 0, F.fin 0, F.fin (z / 2 + 1 / 2), F.fin 1⟩ ∧
    screen1 ctx2 (triProg z col) =
      ⟨F.fin 2, F.fin 0, F.fin (z / 2 + 1 / 2), F.fin 1⟩ ∧
    screen2 ctx2 (triProg z col) =
      ⟨F.fin 0, F.fin 2, F.fin (z / 2 + 1 / 2), F.fin 1⟩ := by
  refine ⟨?_, ?_, ?_⟩
  · rw [triProg, screen0_eval]
    norm_num
  · rw [triProg, screen1_eval]
    norm_num
  · rw [triProg, screen2_eval]
    norm_num

/-- A `triProg` is front-facing (counter-clockwise NDC winding). -/
theorem triProg_bf (z : ℚ) (col : vec4_t) :
    is_back_facing (ndc0 (triProg z col)) (ndc1 (triProg z col))
      (ndc2 (triProg z col)) = false := by
  have h0 : ndc0 (triProg z col) = ⟨F.fin (-1), F.fin (-1), F.fin z,
      F.fin 1⟩ := by
    rw [ndc0, show clip0 (triProg z col) =
      ⟨F.fin (-1), F.fin (-1), F.fin z, F.fin 1⟩ from rfl]
    rw [show (⟨F.fin (-1), F.fin (-1), F.fin z, F.fin 1⟩ : vec4_t).w =
      F.fin 1 from rfl, F.div_fin_fin 1 one_ne_zero]
    norm_num [vec4_scale]
  have h1 : ndc1 (triProg z col) = ⟨F.fin 1, F.fin (-1), F.fin z,
      F.fin 1⟩ := by
    rw [ndc1, show clip1 (triProg z col) =
      ⟨F.fin 1, F.fin (-1), F.fin z, F.fin 1⟩ from rfl]
    rw [show (⟨F.fin 1, F.fin (-1), F.fin z, F.fin 1⟩ : vec4_t).w =
      F.fin 1 from rfl, F.div_fin_fin 1 one_ne_zero]
    norm_num [vec4_scale]
  have h2 : ndc2 (triProg z col) = ⟨F.fin (-1), F.fin 1, F.fin z,
      F.fin 1⟩ := by
    rw [ndc2, show clip2 (triProg z col) =
      ⟨F.fin (-1), F.fin 1, F.fin z, F.fin 1⟩ from rfl]
    rw [show (⟨F.fin (-1), F.fin 1, F.fin z, F.fin 1⟩ : vec4_t).w =
      F.fin 1 from rfl, F.div_fin_fin 1 one_ne_zero]
    norm_num [vec4_scale]
  rw [h0, h1, h2]
  norm_num [is_back_facing, vec3_from_vec4, vec3_sub, vec3_cross]

/-- The screen points of a `triProg` on `ctx2` are finite. -/
theorem triProg_fin (z : ℚ) (col : vec4_t) :
    screenFinite ctx2 (triProg z col) := by
  obtain ⟨h0, h1, h2⟩ := triProg_pts z col
  exact ⟨by rw [h0]; rfl, by rw [h0]; rfl, by rw [h1]; rfl,
    by rw [h1]; rfl, by rw [h2]; rfl, by rw [h2]; rfl⟩

/-- The bounding box of a `triProg` on `ctx2` is the whole 2×2 screen. -/
theorem triProg_box (z : ℚ) (col : vec4_t) :
    triBox ctx2 (triProg z col) = ⟨0, 0, 1, 1⟩ := by
  obtain ⟨h0, h1, h2⟩ := triProg_pts z col
  rw [triBox, h0, h1, h2,
    show ctx2.width = 2 from rfl, show ctx2.height = 2 from rfl,
    find_bounding_box_fin]
  push_cast
  have e1 : max (min (min (0 : ℚ) 2) 0) 0 = 0 := by norm_num
  have e2 : min (max (max (0 : ℚ) 2) 0) ((2 : ℚ) - 1) + 1 / 2 = 3 / 2 := by
    norm_num
  have e3 : max (min (min (0 : ℚ) 0) 2) 0 = 0 := by norm_num
  have e4 : min (max (max (0 : ℚ) 0) 2) ((2 : ℚ) - 1) + 1 / 2 = 3 / 2 := by
    norm_num
  rw [e1, e2, e3, e4,
    truncQ_eq_of_nonneg 0 (by norm_num) (by norm_num) (by norm_num),
    truncQ_eq_of_nonneg 1 (by norm_num) (by norm_num) (by norm_num)]

/-- Pixel `(0,0)` is traversed for every `triProg` on `ctx2`. -/
theorem triProg_mem00 (z : ℚ) (col : vec4_t) :
    ((0 : ℤ), (0 : ℤ)) ∈ pixelList (triBox ctx2 (triProg z col)) := by
  rw [triProg_box, pixelList_mem]
  refine ⟨le_refl 0, ?_, le_refl 0, ?_⟩ <;> norm_num

/-- The barycentric weights of pixel `(0,0)` for a `triProg` on `ctx2`. -/
theorem triProg_weights00 (z : ℚ) (col : vec4_t) :
    weightsAt ctx2 (triProg z col) (0, 0) =
      ⟨F.fin 1, F.fin 0, F.fin 0⟩ := by
  obtain ⟨h0, h1, h2⟩ := triProg_pts z col
  rw [weightsAt, h0, h1, h2]
  norm_num [calculate_weights, vec2_sub, F.div_fin_fin]

/-- Pixel `(0,0)` passes the interior test for every `triProg` on
`ctx2`. -/
theorem triProg_inside00 (z : ℚ) (col : vec4_t) :
    insideAt ctx2 (triProg z col) (0, 0) = true := by
  rw [insideAt, triProg_weights00]
  norm_num [weights_inside]

/-- The interpolated depth of pixel `(0,0)` for a `triProg` on `ctx2`. -/
theorem triProg_depth00 (z : ℚ) (col : vec4_t) :
    depthAt ctx2 (triProg z col) (0, 0) = F.fin (z / 2 + 1 / 2) := by
  obtain ⟨h0, h1, h2⟩ := triProg_screens z col
  rw [depthAt, h0, h1, h2, triProg_weights00]
  norm_num [calculate_depth]

/-- Witness for C10: `progA` on the freshly cleared `ctx2` at pixel
`(0,0)`. -/
theorem c10_write_pairing_witness :
    (((0 : ℤ), (0 : ℤ)) ∈ (gfx_draw_triangle ctx2 progA).frags ↔
      ((0 : ℤ), (0 : ℤ)) ∈ pixelList (triBox ctx2 progA) ∧
      insideAt ctx2 progA (0, 0) = true ∧
      F.lt (depthAt ctx2 progA (0, 0))
        (ctx2.depthbuffer (depthIndex ctx2.width (0, 0))) = true) ∧
    (((0 : ℤ), (0 : ℤ)) ∈ (gfx_draw_triangle ctx2 progA).frags →
      (gfx_draw_triangle ctx2 progA).depthbuffer
          (depthIndex ctx2.width (0, 0)) = depthAt ctx2 progA (0, 0) ∧
      ∃ v : Unit,
        (gfx_draw_triangle ctx2 progA).colorbuffer
            (colorBase ctx2.width (0, 0)) =
          castUChar (F.mul (clamp_float (progA.fragment_shader
            (progA.interp_varyings v (weightsAt ctx2 progA (0, 0)))).x
            (F.fin 0) (F.fin 1)) (F.fin 255)) ∧
        (gfx_draw_triangle ctx2 progA).colorbuffer
            (colorBase ctx2.width (0, 0) + 1) =
          castUChar (F.mul (clamp_float (progA.fragment_shader
            (progA.interp_varyings v (weightsAt ctx2 progA (0, 0)))).y
            (F.fin 0) (F.fin 1)) (F.fin 255)) ∧
        (gfx_draw_triangle ctx2 progA).colorbuffer
            (colorBase ctx2.width (0, 0) + 2) =
          castUChar (F.mul (clamp_float (progA.fragment_shader
            (progA.interp_varyings v (weightsAt ctx2 progA (0, 0)))).z
            (F.fin 0) (F.fin 1)) (F.fin 255))) ∧
    (((0 : ℤ), (0 : ℤ)) ∉ (gfx_draw_triangle ctx2 progA).frags →
      (∀ c, c = 0 ∨ c = 1 ∨ c = 2 →
        (gfx_draw_triangle ctx2 progA).colorbuffer
            (colorBase ctx2.width (0, 0) + c) =
          ctx2.colorbuffer (colorBase ctx2.width (0, 0) + c)) ∧
      (gfx_draw_triangle ctx2 progA).depthbuffer
          (depthIndex ctx2.width (0, 0)) =
        ctx2.depthbuffer (depthIndex ctx2.width (0, 0))) := by
  obtain ⟨hv0, hv1, hv2⟩ := triProg_vis 0 (by norm_num) (by norm_num)
    (⟨F.fin 1, F.fin 0, F.fin 0, F.fin 1⟩ : vec4_t)
  exact c10_write_pairing ctx2 progA (by norm_num [ctx2]) hv0 hv1 hv2
    (triProg_bf 0 _) (triProg_fin 0 _) (0, 0)
    ⟨le_refl 0, by norm_num [ctx2], le_refl 0⟩

/-! Claim C4: the pixel write. -/

/-- The byte computed for one color channel: clamp to `[0,1]`, scale by
255, and truncate (round toward zero) — not round to nearest. -/
theorem byte_of_channel (r : ℚ) :
    castUChar (F.mul (clamp_float (F.fin r) (F.fin 0) (F.fin 1))
      (F.fin 255)) = (⌊max 0 (min r 1) * 255⌋).toNat := by
  have hcl : clamp_float (F.fin r) (F.fin 0) (F.fin 1) =
      F.fin (max 0 (min r 1)) := by
    unfold clamp_float
    simp only [F.lt_fin_fin, F.gt_fin_fin, decide_eq_true_eq]
    split_ifs <;>
      refine congrArg F.fin ?_ <;>
      simp only [min_def, max_def] <;>
      split_ifs <;> linarith
  rw [hcl, F.mul_fin_fin]
  show (truncQ (max 0 (min r 1) * 255)).toNat = _
  rw [truncQ_of_nonneg (by positivity)]

/-- C4 amended: a fragment that passes the interior and depth tests has
its three color bytes written as the truncation (not the rounding) of
`clamp(color[c], 0, 1) · 255`, and the depth cell is then set to the
fragment's interpolated depth. -/
theorem c4_fragment_write_amended {V : Type} (width : ℤ)
    (prog : program_t V) (s0 s1 s2 : vec4_t) (p0 p1 p2 : vec2_t)
    (st : RState V) (xy : ℤ × ℤ) (r g b a : ℚ)
    (hin : weights_inside (sampleWeights p0 p1 p2 xy) = true)
    (hd : F.gt (st.depthbuffer (depthIndex width xy))
      (calculate_depth s0 s1 s2 (sampleWeights p0 p1 p2 xy)) = true)
    (hcol : prog.fragment_shader (prog.interp_varyings st.varyings
      (sampleWeights p0 p1 p2 xy)) = ⟨F.fin r, F.fin g, F.fin b, F.fin a⟩) :
    (pixel_step width prog s0 s1 s2 p0 p1 p2 st xy).colorbuffer
        (colorBase width xy) = (⌊max 0 (min r 1) * 255⌋).toNat ∧
    (pixel_step width prog s0 s1 s2 p0 p1 p2 st xy).colorbuffer
        (colorBase width xy + 1) = (⌊max 0 (min g 1) * 255⌋).toNat ∧
    (pixel_step width prog s0 s1 s2 p0 p1 p2 st xy).colorbuffer
        (colorBase width xy + 2) = (⌊max 0 (min b 1) * 255⌋).toNat ∧
    (pixel_step width prog s0 s1 s2 p0 p1 p2 st xy).depthbuffer
        (depthIndex width xy) =
      calculate_depth s0 s1 s2 (sampleWeights p0 p1 p2 xy) := by
  have hc : shadeCond width s0 s1 s2 p0 p1 p2 st.depthbuffer xy = true := by
    rw [shadeCond, hin, hd]
    rfl
  rw [pixel_step_eq, if_pos hc, hcol]
  dsimp only
  obtain ⟨hw0, hw1, hw2⟩ :=
    write_fragment_color_at width st.colorbuffer
      (⟨F.fin r, F.fin g, F.fin b, F.fin a⟩ : vec4_t) xy.1 xy.2
  refine ⟨?_, ?_, ?_, ?_⟩
  · rw [show colorBase width xy = xy.2 * width * 3 + xy.1 * 3 from rfl, hw0]
    exact byte_of_channel r
  · rw [show colorBase width xy + 1 = xy.2 * width * 3 + xy.1 * 3 + 1
      from rfl, hw1]
    exact byte_of_channel g
  · rw [show colorBase width xy + 2 = xy.2 * width * 3 + xy.1 * 3 + 2
      from rfl, hw2]
    exact byte_of_channel b
  · dsimp only
    rw [if_pos rfl]

/-- C4 counterexample: drawing a triangle whose constant fragment color
has channel value `1/2` writes byte `127` (truncation of `127.5`) at the
covered pixel `(0,0)`, while the claimed `round(clamp(color,0,1)·255)`
is `128`. -/
theorem c4_counterexample :
    (gfx_draw_triangle ctx2 progHalf).colorbuffer
        (colorBase ctx2.width (0, 0)) = 127 ∧
    ((0 : ℤ), (0 : ℤ)) ∈ (gfx_draw_triangle ctx2 progHalf).frags ∧
    round_spec (max 0 (min (1 / 2 : ℚ) 1) * 255) = 128 ∧
    (127 : ℕ) ≠ 128 := by
  rw [show progHalf = triProg 0
    ⟨F.fin (1 / 2), F.fin 0, F.fin 0, F.fin 1⟩ from rfl]
  obtain ⟨hv0, hv1, hv2⟩ := triProg_vis 0 (by norm_num) (by norm_num)
    (⟨F.fin (1 / 2), F.fin 0, F.fin 0, F.fin 1⟩ : vec4_t)
  have hbnd := triBox_bounds ctx2
    (triProg 0 ⟨F.fin (1 / 2), F.fin 0, F.fin 0, F.fin 1⟩)
    (by norm_num [ctx2]) (triProg_fin 0 _)
  have hnd := pixelList_nodup (triBox ctx2
    (triProg 0 ⟨F.fin (1 / 2), F.fin 0, F.fin 0, F.fin 1⟩))
  set out := (pixelList (triBox ctx2
      (triProg 0 ⟨F.fin (1 / 2), F.fin 0, F.fin 0, F.fin 1⟩))).foldl
      (pixel_step ctx2.width
        (triProg 0 ⟨F.fin (1 / 2), F.fin 0, F.fin 0, F.fin 1⟩)
        (screen0 ctx2 (triProg 0 ⟨F.fin (1 / 2), F.fin 0, F.fin 0, F.fin 1⟩))
        (screen1 ctx2 (triProg 0 ⟨F.fin (1 / 2), F.fin 0, F.fin 0, F.fin 1⟩))
        (screen2 ctx2 (triProg 0 ⟨F.fin (1 / 2), F.fin 0, F.fin 0, F.fin 1⟩))
        (screenPt0 ctx2
          (triProg 0 ⟨F.fin (1 / 2), F.fin 0, F.fin 0, F.fin 1⟩))
        (screenPt1 ctx2
          (triProg 0 ⟨F.fin (1 / 2), F.fin 0, F.fin 0, F.fin 1⟩))
        (screenPt2 ctx2
          (triProg 0 ⟨F.fin (1 / 2), F.fin 0, F.fin 0, F.fin 1⟩)))
      (⟨ctx2.colorbuffer, ctx2.depthbuffer, vary3
        (triProg 0 ⟨F.fin (1 / 2), F.fin 0, F.fin 0, F.fin 1⟩), []⟩ :
        RState Unit)
    with hout
  have hdraw : gfx_draw_triangle ctx2
      (triProg 0 ⟨F.fin (1 / 2), F.fin 0, F.fin 0, F.fin 1⟩) =
      ⟨out.colorbuffer, out.depthbuffer, out.varyings, [0, 1, 2],
        out.frags⟩ := by
    rw [hout]
    exact gfx_draw_triangle_raster ctx2 _ hv0 hv1 hv2 (triProg_bf 0 _)
  have hcond : shadeCond ctx2.width
      (screen0 ctx2 (triProg 0 ⟨F.fin (1 / 2), F.fin 0, F.fin 0, F.fin 1⟩))
      (screen1 ctx2 (triProg 0 ⟨F.fin (1 / 2), F.fin 0, F.fin 0, F.fin 1⟩))
      (screen2 ctx2 (triProg 0 ⟨F.fin (1 / 2), F.fin 0, F.fin 0, F.fin 1⟩))
      (screenPt0 ctx2 (triProg 0 ⟨F.fin (1 / 2), F.fin 0, F.fin 0, F.fin 1⟩))
      (screenPt1 ctx2 (triProg 0 ⟨F.fin (1 / 2), F.fin 0, F.fin 0, F.fin 1⟩))
      (screenPt2 ctx2 (triProg 0 ⟨F.fin (1 / 2), F.fin 0, F.fin 0, F.fin 1⟩))
      (RState.depthbuffer ⟨ctx2.colorbuffer, ctx2.depthbuffer, vary3
        (triProg 0 ⟨F.fin (1 / 2), F.fin 0, F.fin 0, F.fin 1⟩), []⟩)
      (0, 0) = true := by
    have hbridge : shadeCond ctx2.width
        (screen0 ctx2 (triProg 0 ⟨F.fin (1 / 2), F.fin 0, F.fin 0, F.fin 1⟩))
        (screen1 ctx2 (triProg 0 ⟨F.fin (1 / 2), F.fin 0, F.fin 0, F.fin 1⟩))
        (screen2 ctx2 (triProg 0 ⟨F.fin (1 / 2), F.fin 0, F.fin 0, F.fin 1⟩))
        (screenPt0 ctx2
          (triProg 0 ⟨F.fin (1 / 2), F.fin 0, F.fin 0, F.fin 1⟩))
        (screenPt1 ctx2
          (triProg 0 ⟨F.fin (1 / 2), F.fin 0, F.fin 0, F.fin 1⟩))
        (screenPt2 ctx2
          (triProg 0 ⟨F.fin (1 / 2), F.fin 0, F.fin 0, F.fin 1⟩))
        (RState.depthbuffer ⟨ctx2.colorbuffer, ctx2.depthbuffer, vary3
          (triProg 0 ⟨F.fin (1 / 2), F.fin 0, F.fin 0, F.fin 1⟩), []⟩)
        (0, 0) =
        (insideAt ctx2 (triProg 0 ⟨F.fin (1 / 2), F.fin 0, F.fin 0, F.fin 1⟩)
            (0, 0) &&
          F.lt (depthAt ctx2
              (triProg 0 ⟨F.fin (1 / 2), F.fin 0, F.fin 0, F.fin 1⟩) (0, 0))
            (ctx2.depthbuffer (depthIndex ctx2.width (0, 0)))) := rfl
    rw [hbridge, triProg_inside00, triProg_depth00,
      show ctx2.depthbuffer (depthIndex ctx2.width (0, 0)) = F.fin 1000
        from rfl]
    norm_num
  have hco := foldl_color_at ctx2.width
    (triProg 0 ⟨F.fin (1 / 2), F.fin 0, F.fin 0, F.fin 1⟩)
    (screen0 ctx2 (triProg 0 ⟨F.fin (1 / 2), F.fin 0, F.fin 0, F.fin 1⟩))
    (screen1 ctx2 (triProg 0 ⟨F.fin (1 / 2), F.fin 0, F.fin 0, F.fin 1⟩))
    (screen2 ctx2 (triProg 0 ⟨F.fin (1 / 2), F.fin 0, F.fin 0, F.fin 1⟩))
    (screenPt0 ctx2 (triProg 0 ⟨F.fin (1 / 2), F.fin 0, F.fin 0, F.fin 1⟩))
    (screenPt1 ctx2 (triProg 0 ⟨F.fin (1 / 2), F.fin 0, F.fin 0, F.fin 1⟩))
    (screenPt2 ctx2 (triProg 0 ⟨F.fin (1 / 2), F.fin 0, F.fin 0, F.fin 1⟩))
    (pixelList (triBox ctx2
      (triProg 0 ⟨F.fin (1 / 2), F.fin 0, F.fin 0, F.fin 1⟩)))
    ⟨ctx2.colorbuffer, ctx2.depthbuffer, vary3
      (triProg 0 ⟨F.fin (1 / 2), F.fin 0, F.fin 0, F.fin 1⟩), []⟩
    hnd hbnd (0, 0) (triProg_mem00 0 _)
  have hfr := foldl_frags_mem ctx2.width
    (triProg 0 ⟨F.fin (1 / 2), F.fin 0, F.fin 0, F.fin 1⟩)
    (screen0 ctx2 (triProg 0 ⟨F.fin (1 / 2), F.fin 0, F.fin 0, F.fin 1⟩))
    (screen1 ctx2 (triProg 0 ⟨F.fin (1 / 2), F.fin 0, F.fin 0, F.fin 1⟩))
    (screen2 ctx2 (triProg 0 ⟨F.fin (1 / 2), F.fin 0, F.fin 0, F.fin 1⟩))
    (screenPt0 ctx2 (triProg 0 ⟨F.fin (1 / 2), F.fin 0, F.fin 0, F.fin 1⟩))
    (screenPt1 ctx2 (triProg 0 ⟨F.fin (1 / 2), F.fin 0, F.fin 0, F.fin 1⟩))
    (screenPt2 ctx2 (triProg 0 ⟨F.fin (1 / 2), F.fin 0, F.fin 0, F.fin 1⟩))
    (pixelList (triBox ctx2
      (triProg 0 ⟨F.fin (1 / 2), F.fin 0, F.fin 0, F.fin 1⟩)))
    ⟨ctx2.colorbuffer, ctx2.depthbuffer, vary3
      (triProg 0 ⟨F.fin (1 / 2), F.fin 0, F.fin 0, F.fin 1⟩), []⟩
    hnd hbnd (0, 0) (triProg_mem00 0 _)
  rw [← hout] at hco hfr
  rw [hdraw]
  dsimp only
  obtain ⟨v, hb0, _, _⟩ := hco.2 hcond
  refine ⟨?_, ?_, ?_, by norm_num⟩
  · rw [hb0]
    show castUChar (F.mul (clamp_float (F.fin (1 / 2)) (F.fin 0) (F.fin 1))
      (F.fin 255)) = 127
    rw [byte_of_channel,
      show max 0 (min (1 / 2 : ℚ) 1) * 255 = 255 / 2 from by norm_num]
    have hfl : (⌊(255 / 2 : ℚ)⌋ : ℤ) = 127 := by
      rw [Int.floor_eq_iff]
      constructor <;> norm_num
    rw [hfl]
    rfl
  · rw [hfr]
    right
    exact hcond
  · rw [round_spec]
    norm_num

/-! Claim C1: depth test and depth ordering. -/

/-- Evaluation of `calculate_weights` on finite points with a nonzero
denominator: the exact rational Cramer formulas. -/
theorem calculate_weights_fin (a0 b0 a1 b1 a2 b2 px py : ℚ)
    (h : (a1 - a0) * (b2 - b0) - (b1 - b0) * (a2 - a0) ≠ 0) :
    calculate_weights ⟨F.fin a0, F.fin b0⟩ ⟨F.fin a1, F.fin b1⟩
        ⟨F.fin a2, F.fin b2⟩ ⟨F.fin px, F.fin py⟩ =
      ⟨F.fin (1 - ((b2 - b0) * (px - a0) - (a2 - a0) * (py - b0)) /
          ((a1 - a0) * (b2 - b0) - (b1 - b0) * (a2 - a0)) -
        ((a1 - a0) * (py - b0) - (b1 - b0) * (px - a0)) /
          ((a1 - a0) * (b2 - b0) - (b1 - b0) * (a2 - a0))),
       F.fin (((b2 - b0) * (px - a0) - (a2 - a0) * (py - b0)) /
          ((a1 - a0) * (b2 - b0) - (b1 - b0) * (a2 - a0))),
       F.fin (((a1 - a0) * (py - b0) - (b1 - b0) * (px - a0)) /
          ((a1 - a0) * (b2 - b0) - (b1 - b0) * (a2 - a0)))⟩ := by
  simp only [calculate_weights, vec2_sub, F.sub_fin_fin, F.mul_fin_fin,
    F.div_fin_fin _ h]

/-- Convexity of the interior test: an in-screen pixel whose sample
point passes the interior test lies inside the traversed bounding box
(on a screen with positive dimensions and finite screen points). -/
theorem inside_mem_pixelList {V : Type} (ctx : context_t)
    (prog : program_t V) (hW : 1 ≤ ctx.width) (hH : 1 ≤ ctx.height)
    (hfin : screenFinite ctx prog) (p : ℤ × ℤ)
    (hscr : inScreen ctx.width ctx.height p)
    (hin : insideAt ctx prog p = true) :
    p ∈ pixelList (triBox ctx prog) := by
  obtain ⟨hx0, hy0, hx1, hy1, hx2, hy2⟩ := hfin
  obtain ⟨a0, ha0⟩ := F.isFinite_iff.mp hx0
  obtain ⟨b0, hb0⟩ := F.isFinite_iff.mp hy0
  obtain ⟨a1, ha1⟩ := F.isFinite_iff.mp hx1
  obtain ⟨b1, hb1⟩ := F.isFinite_iff.mp hy1
  obtain ⟨a2, ha2⟩ := F.isFinite_iff.mp hx2
  obtain ⟨b2, hb2⟩ := F.isFinite_iff.mp hy2
  have e0 : screenPt0 ctx prog = ⟨F.fin a0, F.fin b0⟩ := by rw [← ha0, ← hb0]
  have e1 : screenPt1 ctx prog = ⟨F.fin a1, F.fin b1⟩ := by rw [← ha1, ← hb1]
  have e2 : screenPt2 ctx prog = ⟨F.fin a2, F.fin b2⟩ := by rw [← ha2, ← hb2]
  obtain ⟨hpx0, hpxW, hpy0, hpyH⟩ := hscr
  have hDne : (a1 - a0) * (b2 - b0) - (b1 - b0) * (a2 - a0) ≠ 0 := by
    intro h0
    have hz : weights_inside (calculate_weights (screenPt0 ctx prog)
        (screenPt1 ctx prog) (screenPt2 ctx prog)
        ⟨F.fin (p.1 : ℚ), F.fin (p.2 : ℚ)⟩) = false := by
      apply weights_inside_denom_zero
      rw [e0, e1, e2]
      simp only [vec2_sub, F.sub_fin_fin, F.mul_fin_fin]
      rw [h0]
    have hi2 : insideAt ctx prog p = false := hz
    rw [hi2] at hin
    exact Bool.false_ne_true hin
  have hw : weightsAt ctx prog p =
      ⟨F.fin (1 - ((b2 - b0) * ((p.1 : ℚ) - a0) - (a2 - a0) *
          ((p.2 : ℚ) - b0)) /
          ((a1 - a0) * (b2 - b0) - (b1 - b0) * (a2 - a0)) -
        ((a1 - a0) * ((p.2 : ℚ) - b0) - (b1 - b0) * ((p.1 : ℚ) - a0)) /
          ((a1 - a0) * (b2 - b0) - (b1 - b0) * (a2 - a0))),
       F.fin (((b2 - b0) * ((p.1 : ℚ) - a0) - (a2 - a0) *
          ((p.2 : ℚ) - b0)) /
          ((a1 - a0) * (b2 - b0) - (b1 - b0) * (a2 - a0))),
       F.fin (((a1 - a0) * ((p.2 : ℚ) - b0) - (b1 - b0) *
          ((p.1 : ℚ) - a0)) /
          ((a1 - a0) * (b2 - b0) - (b1 - b0) * (a2 - a0)))⟩ := by
    rw [weightsAt, e0, e1, e2]
    exact calculate_weights_fin a0 b0 a1 b1 a2 b2 (p.1 : ℚ) (p.2 : ℚ) hDne
  have hin2 := hin
  unfold insideAt at hin2
  rw [hw] at hin2
  simp only [weights_inside, F.ge_fin_fin, Bool.and_eq_true,
    decide_eq_true_eq] at hin2
  obtain ⟨⟨hw1, hw2⟩, hw3⟩ := hin2
  set s := ((b2 - b0) * ((p.1 : ℚ) - a0) - (a2 - a0) * ((p.2 : ℚ) - b0)) /
    ((a1 - a0) * (b2 - b0) - (b1 - b0) * (a2 - a0)) with hs_def
  set t := ((a1 - a0) * ((p.2 : ℚ) - b0) - (b1 - b0) * ((p.1 : ℚ) - a0)) /
    ((a1 - a0) * (b2 - b0) - (b1 - b0) * (a2 - a0)) with ht_def
  have hsumx : (p.1 : ℚ) = (1 - s - t) * a0 + s * a1 + t * a2 := by
    rw [hs_def, ht_def]
    field_simp
    ring
  have hsumy : (p.2 : ℚ) = (1 - s - t) * b0 + s * b1 + t * b2 := by
    rw [hs_def, ht_def]
    field_simp
    ring
  have hxlo : min (min a0 a1) a2 ≤ (p.1 : ℚ) := by
    have m1 : min (min a0 a1) a2 ≤ a0 :=
      le_trans (min_le_left _ _) (min_le_left _ _)
    have m2 : min (min a0 a1) a2 ≤ a1 :=
      le_trans (min_le_left _ _) (min_le_right _ _)
    have m3 : min (min a0 a1) a2 ≤ a2 := min_le_right _ _
    have hsum1 : (1 - s - t) * min (min a0 a1) a2 + s * min (min a0 a1) a2 +
        t * min (min a0 a1) a2 = min (min a0 a1) a2 := by ring
    nlinarith [mul_nonneg hw2 (sub_nonneg.mpr m2),
      mul_nonneg hw3 (sub_nonneg.mpr m3),
      mul_nonneg hw1 (sub_nonneg.mpr m1)]
  have hxhi : (p.1 : ℚ) ≤ max (max a0 a1) a2 := by
    have m1 : a0 ≤ max (max a0 a1) a2 :=
      le_trans (le_max_left _ _) (le_max_left _ _)
    have m2 : a1 ≤ max (max a0 a1) a2 :=
      le_trans (le_max_right _ _) (le_max_left _ _)
    have m3 : a2 ≤ max (max a0 a1) a2 := le_max_right _ _
    nlinarith [mul_nonneg hw2 (sub_nonneg.mpr m2),
      mul_nonneg hw3 (sub_nonneg.mpr m3),
      mul_nonneg hw1 (sub_nonneg.mpr m1)]
  have hylo : min (min b0 b1) b2 ≤ (p.2 : ℚ) := by
    have m1 : min (min b0 b1) b2 ≤ b0 :=
      le_trans (min_le_left _ _) (min_le_left _ _)
    have m2 : min (min b0 b1) b2 ≤ b1 :=
      le_trans (min_le_left _ _) (min_le_right _ _)
    have m3 : min (min b0 b1) b2 ≤ b2 := min_le_right _ _
    nlinarith [mul_nonneg hw2 (sub_nonneg.mpr m2),
      mul_nonneg hw3 (sub_nonneg.mpr m3),
      mul_nonneg hw1 (sub_nonneg.mpr m1)]
  have hyhi : (p.2 : ℚ) ≤ max (max b0 b1) b2 := by
    have m1 : b0 ≤ max (max b0 b1) b2 :=
      le_trans (le_max_left _ _) (le_max_left _ _)
    have m2 : b1 ≤ max (max b0 b1) b2 :=
      le_trans (le_max_right _ _) (le_max_left _ _)
    have m3 : b2 ≤ max (max b0 b1) b2 := le_max_right _ _
    nlinarith [mul_nonneg hw2 (sub_nonneg.mpr m2),
      mul_nonneg hw3 (sub_nonneg.mpr m3),
      mul_nonneg hw1 (sub_nonneg.mpr m1)]
  rw [show triBox ctx prog = find_bounding_box ctx.width ctx.height
      ⟨F.fin a0, F.fin b0⟩ ⟨F.fin a1, F.fin b1⟩ ⟨F.fin a2, F.fin b2⟩ from by
        rw [triBox, e0, e1, e2],
    find_bounding_box_fin, pixelList_mem]
  dsimp only
  refine ⟨?_, ?_, ?_, ?_⟩
  · refine truncQ_le ?_
    refine max_le hxlo ?_
    exact_mod_cast hpx0
  · refine le_truncQ ?_
    have hm : (p.1 : ℚ) ≤ min (max (max a0 a1) a2) ((ctx.width : ℚ) - 1) := by
      refine le_min hxhi ?_
      push_cast
      exact_mod_cast by push_cast; linarith [hpxW]
    linarith
  · refine truncQ_le ?_
    refine max_le hylo ?_
    exact_mod_cast hpy0
  · refine le_truncQ ?_
    have hm : (p.2 : ℚ) ≤ min (max (max b0 b1) b2) ((ctx.height : ℚ) - 1) := by
      refine le_min hyhi ?_
      push_cast
      exact_mod_cast by push_cast; linarith [hpyH]
    linarith

/-- Depth-test characterization at a covered pixel: for a draw that
reaches rasterization, an in-screen pixel passing the interior test is
shaded iff its interpolated depth is strictly below the stored depth,
and the stored depth is then updated to it. -/
theorem draw_covered_pixel {V : Type} (ctx : context_t) (prog : program_t V)
    (hW : 1 ≤ ctx.width) (hH : 1 ≤ ctx.height)
    (h0 : is_vertex_invisible (clip0 prog) = false)
    (h1 : is_vertex_invisible (clip1 prog) = false)
    (h2 : is_vertex_invisible (clip2 prog) = false)
    (hbf : is_back_facing (ndc0 prog) (ndc1 prog) (ndc2 prog) = false)
    (hfin : screenFinite ctx prog) (p : ℤ × ℤ)
    (hscr : inScreen ctx.width ctx.height p)
    (hin : insideAt ctx prog p = true) :
    (p ∈ (gfx_draw_triangle ctx prog).frags ↔
      F.lt (depthAt ctx prog p)
        (ctx.depthbuffer (depthIndex ctx.width p)) = true) ∧
    (p ∈ (gfx_draw_triangle ctx prog).frags →
      (gfx_draw_triangle ctx prog).depthbuffer (depthIndex ctx.width p) =
        depthAt ctx prog p) := by
  have hmem := inside_mem_pixelList ctx prog hW hH hfin p hscr hin
  have hbnd := triBox_bounds ctx prog hW hfin
  have hnd := pixelList_nodup (triBox ctx prog)
  have hdraw := gfx_draw_triangle_raster ctx prog h0 h1 h2 hbf
  have hfr := foldl_frags_mem ctx.width prog (screen0 ctx prog)
    (screen1 ctx prog) (screen2 ctx prog) (screenPt0 ctx prog)
    (screenPt1 ctx prog) (screenPt2 ctx prog) (pixelList (triBox ctx prog))
    ⟨ctx.colorbuffer, ctx.depthbuffer, vary3 prog, []⟩ hnd hbnd p hmem
  have hdp := foldl_depth_at ctx.width prog (screen0 ctx prog)
    (screen1 ctx prog) (screen2 ctx prog) (screenPt0 ctx prog)
    (screenPt1 ctx prog) (screenPt2 ctx prog) (pixelList (triBox ctx prog))
    ⟨ctx.colorbuffer, ctx.depthbuffer, vary3 prog, []⟩ hnd hbnd p hmem
  have hcond : shadeCond ctx.width (screen0 ctx prog) (screen1 ctx prog)
      (screen2 ctx prog) (screenPt0 ctx prog) (screenPt1 ctx prog)
      (screenPt2 ctx prog)
      (RState.depthbuffer ⟨ctx.colorbuffer, ctx.depthbuffer, vary3 prog, []⟩)
      p =
      (insideAt ctx prog p &&
        F.lt (depthAt ctx prog p)
          (ctx.depthbuffer (depthIndex ctx.width p))) := rfl
  rw [hcond, hin, Bool.true_and] at hfr hdp
  rw [hdraw]
  dsimp only
  dsimp only at hfr hdp
  constructor
  · rw [hfr]
    simp only [List.not_mem_nil, false_or]
  · intro hpin
    have hc : F.lt (depthAt ctx prog p)
        (ctx.depthbuffer (depthIndex ctx.width p)) = true := by
      rcases hfr.mp hpin with h | h
      · exact absurd h (List.not_mem_nil p)
      · exact h
    rw [hdp, if_pos hc]
    rfl

/-- Depth ordering of two draws: a nearer triangle A with a constant
fragment color and a farther triangle B covering the same in-screen
pixel leave A's fragment color at that pixel, in either draw order. -/
theorem draw_depth_order {V W : Type} (ctx : context_t) (pA : program_t V)
    (pB : program_t W) (colA : vec4_t) (p : ℤ × ℤ)
    (hW : 1 ≤ ctx.width) (hH : 1 ≤ ctx.height)
    (hA0 : is_vertex_invisible (clip0 pA) = false)
    (hA1 : is_vertex_invisible (clip1 pA) = false)
    (hA2 : is_vertex_invisible (clip2 pA) = false)
    (hAbf : is_back_facing (ndc0 pA) (ndc1 pA) (ndc2 pA) = false)
    (hAfin : screenFinite ctx pA)
    (hB0 : is_vertex_invisible (clip0 pB) = false)
    (hB1 : is_vertex_invisible (clip1 pB) = false)
    (hB2 : is_vertex_invisible (clip2 pB) = false)
    (hBbf : is_back_facing (ndc0 pB) (ndc1 pB) (ndc2 pB) = false)
    (hBfin : screenFinite ctx pB)
    (hscr : inScreen ctx.width ctx.height p)
    (hinA : insideAt ctx pA p = true) (hinB : insideAt ctx pB p = true)
    (hconst : ∀ v, pA.fragment_shader v = colA)
    (hdA : F.lt (depthAt ctx pA p)
      (ctx.depthbuffer (depthIndex ctx.width p)) = true)
    (hdAB : F.lt (depthAt ctx pA p) (depthAt ctx pB p) = true) :
    ((gfx_draw_triangle (applyDraw ctx pA) pB).colorbuffer
        (colorBase ctx.width p) =
      castUChar (F.mul (clamp_float colA.x (F.fin 0) (F.fin 1))
        (F.fin 255)) ∧
     (gfx_draw_triangle (applyDraw ctx pA) pB).colorbuffer
        (colorBase ctx.width p + 1) =
      castUChar (F.mul (clamp_float colA.y (F.fin 0) (F.fin 1))
        (F.fin 255)) ∧
     (gfx_draw_triangle (applyDraw ctx pA) pB).colorbuffer
        (colorBase ctx.width p + 2) =
      castUChar (F.mul (clamp_float colA.z (F.fin 0) (F.fin 1))
        (F.fin 255))) ∧
    ((gfx_draw_triangle (applyDraw ctx pB) pA).colorbuffer
        (colorBase ctx.width p) =
      castUChar (F.mul (clamp_float colA.x (F.fin 0) (F.fin 1))
        (F.fin 255)) ∧
     (gfx_draw_triangle (applyDraw ctx pB) pA).colorbuffer
        (colorBase ctx.width p + 1) =
      castUChar (F.mul (clamp_float colA.y (F.fin 0) (F.fin 1))
        (F.fin 255)) ∧
     (gfx_draw_triangle (applyDraw ctx pB) pA).colorbuffer
        (colorBase ctx.width p + 2) =
      castUChar (F.mul (clamp_float colA.z (F.fin 0) (F.fin 1))
        (F.fin 255))) := by
  have hmemA := inside_mem_pixelList ctx pA hW hH hAfin p hscr hinA
  have hmemB := inside_mem_pixelList ctx pB hW hH hBfin p hscr hinB
  have hbndA := triBox_bounds ctx pA hW hAfin
  have hbndB := triBox_bounds ctx pB hW hBfin
  have hndA := pixelList_nodup (triBox ctx pA)
  have hndB := pixelList_nodup (triBox ctx pB)
  have hdrawA := gfx_draw_triangle_raster ctx pA hA0 hA1 hA2 hAbf
  have hdrawB := gfx_draw_triangle_raster ctx pB hB0 hB1 hB2 hBbf
  have hcondA : shadeCond ctx.width (screen0 ctx pA) (screen1 ctx pA)
      (screen2 ctx pA) (screenPt0 ctx pA) (screenPt1 ctx pA)
      (screenPt2 ctx pA)
      (RState.depthbuffer ⟨ctx.colorbuffer, ctx.depthbuffer, vary3 pA, []⟩)
      p = true := by
    have hb : shadeCond ctx.width (screen0 ctx pA) (screen1 ctx pA)
        (screen2 ctx pA) (screenPt0 ctx pA) (screenPt1 ctx pA)
        (screenPt2 ctx pA)
        (RState.depthbuffer ⟨ctx.colorbuffer, ctx.depthbuffer, vary3 pA, []⟩)
        p =
        (insideAt ctx pA p &&
          F.lt (depthAt ctx pA p)
            (ctx.depthbuffer (depthIndex ctx.width p))) := rfl
    rw [hb, hinA, Bool.true_and]
    exact hdA
  have hctxA_depth : (applyDraw ctx pA).depthbuffer
      (depthIndex ctx.width p) = depthAt ctx pA p := by
    show (gfx_draw_triangle ctx pA).depthbuffer (depthIndex ctx.width p) = _
    rw [hdrawA]
    dsimp only
    rw [foldl_depth_at ctx.width pA (screen0 ctx pA) (screen1 ctx pA)
      (screen2 ctx pA) (screenPt0 ctx pA) (screenPt1 ctx pA)
      (screenPt2 ctx pA) (pixelList (triBox ctx pA))
      ⟨ctx.colorbuffer, ctx.depthbuffer, vary3 pA, []⟩ hndA hbndA p hmemA,
      if_pos hcondA]
    rfl
  have hctxA_color := (foldl_color_at ctx.width pA (screen0 ctx pA)
    (screen1 ctx pA) (screen2 ctx pA) (screenPt0 ctx pA) (screenPt1 ctx pA)
    (screenPt2 ctx pA) (pixelList (triBox ctx pA))
    ⟨ctx.colorbuffer, ctx.depthbuffer, vary3 pA, []⟩ hndA hbndA p
    hmemA).2 hcondA
  constructor
  · -- order A then B: B skips p, A's bytes remain
    have hcondB2 : shadeCond (applyDraw ctx pA).width
        (screen0 (applyDraw ctx pA) pB) (screen1 (applyDraw ctx pA) pB)
        (screen2 (applyDraw ctx pA) pB) (screenPt0 (applyDraw ctx pA) pB)
        (screenPt1 (applyDraw ctx pA) pB) (screenPt2 (applyDraw ctx pA) pB)
        (RState.depthbuffer ⟨(applyDraw ctx pA).colorbuffer,
          (applyDraw ctx pA).depthbuffer, vary3 pB, []⟩) p = false := by
      have hb : shadeCond (applyDraw ctx pA).width
          (screen0 (applyDraw ctx pA) pB) (screen1 (applyDraw ctx pA) pB)
          (screen2 (applyDraw ctx pA) pB) (screenPt0 (applyDraw ctx pA) pB)
          (screenPt1 (applyDraw ctx pA) pB) (screenPt2 (applyDraw ctx pA) pB)
          (RState.depthbuffer ⟨(applyDraw ctx pA).colorbuffer,
            (applyDraw ctx pA).depthbuffer, vary3 pB, []⟩) p =
          (insideAt ctx pB p &&
            F.lt (depthAt ctx pB p)
              ((applyDraw ctx pA).depthbuffer (depthIndex ctx.width p))) :=
        rfl
      rw [hb, hinB, Bool.true_and, hctxA_depth]
      exact F.lt_asymm hdAB
    have hdrawB2 := gfx_draw_triangle_raster (applyDraw ctx pA) pB hB0 hB1
      hB2 hBbf
    have hunch := (foldl_color_at (applyDraw ctx pA).width pB
      (screen0 (applyDraw ctx pA) pB) (screen1 (applyDraw ctx pA) pB)
      (screen2 (applyDraw ctx pA) pB) (screenPt0 (applyDraw ctx pA) pB)
      (screenPt1 (applyDraw ctx pA) pB) (screenPt2 (applyDraw ctx pA) pB)
      (pixelList (triBox (applyDraw ctx pA) pB))
      ⟨(applyDraw ctx pA).colorbuffer, (applyDraw ctx pA).depthbuffer,
        vary3 pB, []⟩
      (pixelList_nodup _) (triBox_bounds (applyDraw ctx pA) pB hW hBfin) p
      hmemB).1 hcondB2
    obtain ⟨v, hb0, hb1, hb2⟩ := hctxA_color
    rw [hconst] at hb0 hb1 hb2
    have hb0' : (applyDraw ctx pA).colorbuffer (colorBase ctx.width p) =
        castUChar (F.mul (clamp_float colA.x (F.fin 0) (F.fin 1))
          (F.fin 255)) := by
      show (gfx_draw_triangle ctx pA).colorbuffer (colorBase ctx.width p) = _
      rw [hdrawA]
      exact hb0
    have hb1' : (applyDraw ctx pA).colorbuffer (colorBase ctx.width p + 1) =
        castUChar (F.mul (clamp_float colA.y (F.fin 0) (F.fin 1))
          (F.fin 255)) := by
      show (gfx_draw_triangle ctx pA).colorbuffer
        (colorBase ctx.width p + 1) = _
      rw [hdrawA]
      exact hb1
    have hb2' : (applyDraw ctx pA).colorbuffer (colorBase ctx.width p + 2) =
        castUChar (F.mul (clamp_float colA.z (F.fin 0) (F.fin 1))
          (F.fin 255)) := by
      show (gfx_draw_triangle ctx pA).colorbuffer
        (colorBase ctx.width p + 2) = _
      rw [hdrawA]
      exact hb2
    have hcb : colorBase ctx.width p = colorBase (applyDraw ctx pA).width p :=
      rfl
    have h0' := hunch 0 (Or.inl rfl)
    rw [add_zero] at h0'
    have h1' := hunch 1 (Or.inr (Or.inl rfl))
    have h2' := hunch 2 (Or.inr (Or.inr rfl))
    rw [hdrawB2]
    dsimp only
    refine ⟨?_, ?_, ?_⟩
    · rw [hcb, h0']
      dsimp only
      rw [← hcb]
      exact hb0'
    · rw [hcb, h1']
      dsimp only
      rw [← hcb]
      exact hb1'
    · rw [hcb, h2']
      dsimp only
      rw [← hcb]
      exact hb2'
  · -- order B then A: A overwrites p
    have hctxB_depth : F.lt (depthAt ctx pA p)
        ((applyDraw ctx pB).depthbuffer (depthIndex ctx.width p)) = true := by
      show F.lt _ ((gfx_draw_triangle ctx pB).depthbuffer
        (depthIndex ctx.width p)) = true
      rw [hdrawB]
      dsimp only
      rw [foldl_depth_at ctx.width pB (screen0 ctx pB) (screen1 ctx pB)
        (screen2 ctx pB) (screenPt0 ctx pB) (screenPt1 ctx pB)
        (screenPt2 ctx pB) (pixelList (triBox ctx pB))
        ⟨ctx.colorbuffer, ctx.depthbuffer, vary3 pB, []⟩ hndB hbndB p hmemB]
      split_ifs with hc
      · exact hdAB
      · exact hdA
    have hcondA2 : shadeCond (applyDraw ctx pB).width
        (screen0 (applyDraw ctx pB) pA) (screen1 (applyDraw ctx pB) pA)
        (screen2 (applyDraw ctx pB) pA) (screenPt0 (applyDraw ctx pB) pA)
        (screenPt1 (applyDraw ctx pB) pA) (screenPt2 (applyDraw ctx pB) pA)
        (RState.depthbuffer ⟨(applyDraw ctx pB).colorbuffer,
          (applyDraw ctx pB).depthbuffer, vary3 pA, []⟩) p = true := by
      have hb : shadeCond (applyDraw ctx pB).width
          (screen0 (applyDraw ctx pB) pA) (screen1 (applyDraw ctx pB) pA)
          (screen2 (applyDraw ctx pB) pA) (screenPt0 (applyDraw ctx pB) pA)
          (screenPt1 (applyDraw ctx pB) pA) (screenPt2 (applyDraw ctx pB) pA)
          (RState.depthbuffer ⟨(applyDraw ctx pB).colorbuffer,
            (applyDraw ctx pB).depthbuffer, vary3 pA, []⟩) p =
          (insideAt ctx pA p &&
            F.lt (depthAt ctx pA p)
              ((applyDraw ctx pB).depthbuffer (depthIndex ctx.width p))) :=
        rfl
      rw [hb, hinA, Bool.true_and]
      exact hctxB_depth
    have hdrawA2 := gfx_draw_triangle_raster (applyDraw ctx pB) pA hA0 hA1
      hA2 hAbf
    obtain ⟨v, hb0, hb1, hb2⟩ := (foldl_color_at (applyDraw ctx pB).width pA
      (screen0 (applyDraw ctx pB) pA) (screen1 (applyDraw ctx pB) pA)
      (screen2 (applyDraw ctx pB) pA) (screenPt0 (applyDraw ctx pB) pA)
      (screenPt1 (applyDraw ctx pB) pA) (screenPt2 (applyDraw ctx pB) pA)
      (pixelList (triBox (applyDraw ctx pB) pA))
      ⟨(applyDraw ctx pB).colorbuffer, (applyDraw ctx pB).depthbuffer,
        vary3 pA, []⟩
      (pixelList_nodup _) (triBox_bounds (applyDraw ctx pB) pA hW hAfin) p
      hmemA).2 hcondA2
    rw [hconst] at hb0 hb1 hb2
    rw [hdrawA2]
    dsimp only
    rw [show colorBase ctx.width p =
      colorBase (applyDraw ctx pB).width p from rfl]
    exact ⟨hb0, hb1, hb2⟩

/-! Claim C1: the depth test and draw-order independence. -/

/-- C1: for every draw call that reaches rasterization and every covered
in-screen pixel, the fragment is shaded iff its interpolated depth
(`w.x·screen[0].z + w.y·screen[1].z + w.z·screen[2].z`) is strictly less
than the stored value at `depth_buffer[y·W+x]` (C float comparison), and
on a write the depth cell is updated to that depth; consequently, for a
nearer opaque triangle A and a farther triangle B covering the same
pixel, drawn in either order, the pixel's final color bytes are A's
fragment color. -/
theorem c1_depth_test_and_order :
    (∀ (V : Type) (ctx : context_t) (prog : program_t V),
      1 ≤ ctx.width → 1 ≤ ctx.height →
      is_vertex_invisible (clip0 prog) = false →
      is_vertex_invisible (clip1 prog) = false →
      is_vertex_invisible (clip2 prog) = false →
      is_back_facing (ndc0 prog) (ndc1 prog) (ndc2 prog) = false →
      screenFinite ctx prog →
      ∀ p : ℤ × ℤ, inScreen ctx.width ctx.height p →
      insideAt ctx prog p = true →
      ((p ∈ (gfx_draw_triangle ctx prog).frags ↔
          F.lt (depthAt ctx prog p)
            (ctx.depthbuffer (depthIndex ctx.width p)) = true) ∧
        (p ∈ (gfx_draw_triangle ctx prog).frags →
          (gfx_draw_triangle ctx prog).depthbuffer
              (depthIndex ctx.width p) =
            depthAt ctx prog p))) ∧
    (∀ (V W : Type) (ctx : context_t) (pA : program_t V)
        (pB : program_t W) (colA : vec4_t) (p : ℤ × ℤ),
      1 ≤ ctx.width → 1 ≤ ctx.height →
      is_vertex_invisible (clip0 pA) = false →
      is_vertex_invisible (clip1 pA) = false →
      is_vertex_invisible (clip2 pA) = false →
      is_back_facing (ndc0 pA) (ndc1 pA) (ndc2 pA) = false →
      screenFinite ctx pA →
      is_vertex_invisible (clip0 pB) = false →
      is_vertex_invisible (clip1 pB) = false →
      is_vertex_invisible (clip2 pB) = false →
      is_back_facing (ndc0 pB) (ndc1 pB) (ndc2 pB) = false →
      screenFinite ctx pB →
      inScreen ctx.width ctx.height p →
      insideAt ctx pA p = true → insideAt ctx pB p = true →
      (∀ v, pA.fragment_shader v = colA) →
      F.lt (depthAt ctx pA p)
        (ctx.depthbuffer (depthIndex ctx.width p)) = true →
      F.lt (depthAt ctx pA p) (depthAt ctx pB p) = true →
      (((gfx_draw_triangle (applyDraw ctx pA) pB).colorbuffer
           (colorBase ctx.width p) =
         castUChar (F.mul (clamp_float colA.x (F.fin 0) (F.fin 1))
           (F.fin 255)) ∧
        (gfx_draw_triangle (applyDraw ctx pA) pB).colorbuffer
           (colorBase ctx.width p + 1) =
         castUChar (F.mul (clamp_float colA.y (F.fin 0) (F.fin 1))
           (F.fin 255)) ∧
        (gfx_draw_triangle (applyDraw ctx pA) pB).colorbuffer
           (colorBase ctx.width p + 2) =
         castUChar (F.mul (clamp_float colA.z (F.fin 0) (F.fin 1))
           (F.fin 255))) ∧
       ((gfx_draw_triangle (applyDraw ctx pB) pA).colorbuffer
           (colorBase ctx.width p) =
         castUChar (F.mul (clamp_float colA.x (F.fin 0) (F.fin 1))
           (F.fin 255)) ∧
        (gfx_draw_triangle (applyDraw ctx pB) pA).colorbuffer
           (colorBase ctx.width p + 1) =
         castUChar (F.mul (clamp_float colA.y (F.fin 0) (F.fin 1))
           (F.fin 255)) ∧
        (gfx_draw_triangle (applyDraw ctx pB) pA).colorbuffer
           (colorBase ctx.width p + 2) =
         castUChar (F.mul (clamp_float colA.z (F.fin 0) (F.fin 1))
           (F.fin 255))))) := by
  constructor
  · intro V ctx prog hW hH h0 h1 h2 hbf hfin p hscr hin
    exact draw_covered_pixel ctx prog hW hH h0 h1 h2 hbf hfin p hscr hin
  · intro V W ctx pA pB colA p hW hH hA0 hA1 hA2 hAbf hAfin hB0 hB1 hB2
      hBbf hBfin hscr hinA hinB hconst hdA hdAB
    exact draw_depth_order ctx pA pB colA p hW hH hA0 hA1 hA2 hAbf hAfin
      hB0 hB1 hB2 hBbf hBfin hscr hinA hinB hconst hdA hdAB

/-- Witness for C1: the red triangle `progA` (depth `1/2` at pixel
`(0,0)`) against the farther green triangle `progB` (depth `3/4`) on the
freshly cleared `ctx2`; in either draw order the red byte of pixel
`(0,0)` is 255. -/
theorem c1_depth_test_and_order_witness :
    ((((0 : ℤ), (0 : ℤ)) ∈ (gfx_draw_triangle ctx2 progA).frags ↔
        F.lt (depthAt ctx2 progA (0, 0))
          (ctx2.depthbuffer (depthIndex ctx2.width (0, 0))) = true) ∧
      (((0 : ℤ), (0 : ℤ)) ∈ (gfx_draw_triangle ctx2 progA).frags →
        (gfx_draw_triangle ctx2 progA).depthbuffer
            (depthIndex ctx2.width (0, 0)) =
          depthAt ctx2 progA (0, 0))) ∧
    ((gfx_draw_triangle (applyDraw ctx2 progA) progB).colorbuffer
        (colorBase ctx2.width (0, 0)) =
      castUChar (F.mul (clamp_float (F.fin 1) (F.fin 0) (F.fin 1))
        (F.fin 255)) ∧
     (gfx_draw_triangle (applyDraw ctx2 progB) progA).colorbuffer
        (colorBase ctx2.width (0, 0)) =
      castUChar (F.mul (clamp_float (F.fin 1) (F.fin 0) (F.fin 1))
        (F.fin 255))) := by
  obtain ⟨hvA0, hvA1, hvA2⟩ := triProg_vis 0 (by norm_num) (by norm_num)
    (⟨F.fin 1, F.fin 0, F.fin 0, F.fin 1⟩ : vec4_t)
  obtain ⟨hvB0, hvB1, hvB2⟩ := triProg_vis (1 / 2) (by norm_num)
    (by norm_num) (⟨F.fin 0, F.fin 1, F.fin 0, F.fin 1⟩ : vec4_t)
  have hW : (1 : ℤ) ≤ ctx2.width := by norm_num [ctx2]
  have hH : (1 : ℤ) ≤ ctx2.height := by norm_num [ctx2]
  have hscr : inScreen ctx2.width ctx2.height (0, 0) := by
    refine ⟨le_refl 0, ?_, le_refl 0, ?_⟩ <;> norm_num [ctx2]
  have hdepA : depthAt ctx2 progA (0, 0) = F.fin (1 / 2) := by
    rw [show progA = triProg 0 ⟨F.fin 1, F.fin 0, F.fin 0, F.fin 1⟩
      from rfl, triProg_depth00]
    norm_num
  have hdepB : depthAt ctx2 progB (0, 0) = F.fin (3 / 4) := by
    rw [show progB = triProg (1 / 2) ⟨F.fin 0, F.fin 1, F.fin 0, F.fin 1⟩
      from rfl, triProg_depth00]
    norm_num
  have hdA : F.lt (depthAt ctx2 progA (0, 0))
      (ctx2.depthbuffer (depthIndex ctx2.width (0, 0))) = true := by
    rw [hdepA, show ctx2.depthbuffer (depthIndex ctx2.width (0, 0)) =
      F.fin 1000 from rfl, F.lt_fin_fin]
    norm_num
  have hdAB : F.lt (depthAt ctx2 progA (0, 0))
      (depthAt ctx2 progB (0, 0)) = true := by
    rw [hdepA, hdepB, F.lt_fin_fin]
    norm_num
  refine ⟨c1_depth_test_and_order.1 Unit ctx2 progA hW hH hvA0 hvA1 hvA2
    (triProg_bf 0 _) (triProg_fin 0 _) (0, 0) hscr
    (triProg_inside00 0 _), ?_⟩
  have h2 := c1_depth_test_and_order.2 Unit Unit ctx2 progA progB
    ⟨F.fin 1, F.fin 0, F.fin 0, F.fin 1⟩ (0, 0) hW hH hvA0 hvA1 hvA2
    (triProg_bf 0 _) (triProg_fin 0 _) hvB0 hvB1 hvB2 (triProg_bf (1 / 2) _)
    (triProg_fin (1 / 2) _) hscr (triProg_inside00 0 _)
    (triProg_inside00 (1 / 2) _) (fun v => rfl) hdA hdAB
  exact ⟨h2.1.1, h2.2.1⟩

/-- Witness for the amended C4: the loop body of `progHalf` at pixel
`(0,0)` on the cleared buffers writes byte `⌊(1/2)·255⌋ = 127` for the
red channel (and `0` for green and blue), and stores depth `1/2`. -/
theorem c4_fragment_write_amended_witness :
    (pixel_step 2 progHalf
        ⟨F.fin 0, F.fin 0, F.fin (1 / 2), F.fin 1⟩
        ⟨F.fin 2, F.fin 0, F.fin (1 / 2), F.fin 1⟩
        ⟨F.fin 0, F.fin 2, F.fin (1 / 2), F.fin 1⟩
        ⟨F.fin 0, F.fin 0⟩ ⟨F.fin 2, F.fin 0⟩ ⟨F.fin 0, F.fin 2⟩
        ⟨fun _ => 0, fun _ => F.fin 1000, (), []⟩ (0, 0)).colorbuffer
        (colorBase 2 (0, 0)) =
      (⌊max 0 (min (1 / 2 : ℚ) 1) * 255⌋).toNat ∧
    (pixel_step 2 progHalf
        ⟨F.fin 0, F.fin 0, F.fin (1 / 2), F.fin 1⟩
        ⟨F.fin 2, F.fin 0, F.fin (1 / 2), F.fin 1⟩
        ⟨F.fin 0, F.fin 2, F.fin (1 / 2), F.fin 1⟩
        ⟨F.fin 0, F.fin 0⟩ ⟨F.fin 2, F.fin 0⟩ ⟨F.fin 0, F.fin 2⟩
        ⟨fun _ => 0, fun _ => F.fin 1000, (), []⟩ (0, 0)).depthbuffer
        (depthIndex 2 (0, 0)) =
      calculate_depth ⟨F.fin 0, F.fin 0, F.fin (1 / 2), F.fin 1⟩
        ⟨F.fin 2, F.fin 0, F.fin (1 / 2), F.fin 1⟩
        ⟨F.fin 0, F.fin 2, F.fin (1 / 2), F.fin 1⟩
        (sampleWeights ⟨F.fin 0, F.fin 0⟩ ⟨F.fin 2, F.fin 0⟩
          ⟨F.fin 0, F.fin 2⟩ (0, 0)) := by
  have hw : sampleWeights ⟨F.fin 0, F.fin 0⟩ ⟨F.fin 2, F.fin 0⟩
      ⟨F.fin 0, F.fin 2⟩ ((0 : ℤ), (0 : ℤ)) =
      ⟨F.fin 1, F.fin 0, F.fin 0⟩ := by
    rw [sampleWeights]
    norm_num [calculate_weights, vec2_sub, F.div_fin_fin]
  have hin : weights_inside (sampleWeights ⟨F.fin 0, F.fin 0⟩
      ⟨F.fin 2, F.fin 0⟩ ⟨F.fin 0, F.fin 2⟩ ((0 : ℤ), (0 : ℤ))) = true := by
    rw [hw]
    norm_num [weights_inside]
  have hdep : calculate_depth ⟨F.fin 0, F.fin 0, F.fin (1 / 2), F.fin 1⟩
      ⟨F.fin 2, F.fin 0, F.fin (1 / 2), F.fin 1⟩
      ⟨F.fin 0, F.fin 2, F.fin (1 / 2), F.fin 1⟩
      (sampleWeights ⟨F.fin 0, F.fin 0⟩ ⟨F.fin 2, F.fin 0⟩
        ⟨F.fin 0, F.fin 2⟩ ((0 : ℤ), (0 : ℤ))) = F.fin (1 / 2) := by
    rw [hw]
    norm_num [calculate_depth]
  have hd : F.gt ((⟨fun _ => 0, fun _ => F.fin 1000, (), []⟩ :
        RState Unit).depthbuffer (depthIndex 2 ((0 : ℤ), (0 : ℤ))))
      (calculate_depth ⟨F.fin 0, F.fin 0, F.fin (1 / 2), F.fin 1⟩
        ⟨F.fin 2, F.fin 0, F.fin (1 / 2), F.fin 1⟩
        ⟨F.fin 0, F.fin 2, F.fin (1 / 2), F.fin 1⟩
        (sampleWeights ⟨F.fin 0, F.fin 0⟩ ⟨F.fin 2, F.fin 0⟩
          ⟨F.fin 0, F.fin 2⟩ ((0 : ℤ), (0 : ℤ)))) = true := by
    rw [hdep, show (⟨fun _ => 0, fun _ => F.fin 1000, (), []⟩ :
      RState Unit).depthbuffer (depthIndex 2 ((0 : ℤ), (0 : ℤ))) =
      F.fin 1000 from rfl, F.gt_fin_fin]
    norm_num
  have h := c4_fragment_write_amended 2 progHalf
    ⟨F.fin 0, F.fin 0, F.fin (1 / 2), F.fin 1⟩
    ⟨F.fin 2, F.fin 0, F.fin (1 / 2), F.fin 1⟩
    ⟨F.fin 0, F.fin 2, F.fin (1 / 2), F.fin 1⟩
    ⟨F.fin 0, F.fin 0⟩ ⟨F.fin 2, F.fin 0⟩ ⟨F.fin 0, F.fin 2⟩
    ⟨fun _ => 0, fun _ => F.fin 1000, (), []⟩ (0, 0)
    (1 / 2) 0 0 1 hin hd rfl
  exact ⟨h.1, h.2.2.2⟩

end Renderer
